import Mathlib

/-!
Lifecycle coordinator of the event router (`main.go`).

A small-step model of `main` and `sigHandler`.  Every statement of the two
functions is one step of the goroutine that executes it; goroutines are
interleaved by a schedule (a list of `Event`s).  The collaborators that are
only called from `main.go` (client construction, `eventRouter.Run`,
`sharedInformers.Start`) are parameters of the model (`Env`).

Go runtime primitives used by the source and how they are modelled:
* `make(chan ...)` allocates a fresh channel identity (`nextChan`);
* `close(ch)` appends `ch` to `closed`; closing a closed channel panics;
* `signal.Notify(c, sigs...)` registers `c` for `sigs`.  A signal sent to the
  process (`Event.signal`) that is registered is caught by the runtime and
  becomes pending; a signal that is already pending is not queued a second
  time.  The runtime's relay (`Event.relay`) takes the pending signal with the
  lowest number and sends it to `c` without blocking (it is dropped when the
  one-slot buffer is full).  A signal that is not registered gets the default
  disposition of a Go program: it ends the process, so there is no next state,
  or it is ignored (`SIGUSR1`, `SIGUSR2`);
* `sync.WaitGroup`: `Add` adds to the counter, `Done` subtracts one (a negative
  counter panics), `Wait` blocks until the counter is zero;
* a panic, and the return of `main`, end the process: no goroutine steps after.
-/

namespace EventRouter

/-! ## Data model -/

/-- Process signals.  The first six are the ones named in `sigHandler`. -/
inductive Signal
  | SIGINT | SIGTERM | SIGSEGV | SIGABRT | SIGILL | SIGFPE
  | SIGHUP | SIGQUIT | SIGUSR1 | SIGUSR2
  deriving DecidableEq, Repr

/-- The signals passed to `signal.Notify` (main.go lines 40-46). -/
def notifySet : List Signal :=
  [.SIGINT, .SIGTERM, .SIGSEGV, .SIGABRT, .SIGILL, .SIGFPE]

/-- The number of a signal (package `syscall`, linux). -/
def Signal.number : Signal → Nat
  | .SIGHUP => 1 | .SIGINT => 2 | .SIGQUIT => 3 | .SIGILL => 4 | .SIGABRT => 6
  | .SIGFPE => 8 | .SIGUSR1 => 10 | .SIGSEGV => 11 | .SIGUSR2 => 12 | .SIGTERM => 15

/-- Whether a signal that no `signal.Notify` channel is registered for ends a
Go program (the others are caught by the runtime and ignored). -/
def Signal.fatal : Signal → Bool
  | .SIGUSR1 => false | .SIGUSR2 => false | _ => true

abbrev ChanId := Nat
abbrev Config := Nat
abbrev Clientset := Nat
/-- Go `time.Duration`: a count of nanoseconds. -/
abbrev Duration := Int

/-- Go `time.Minute`. -/
def minute : Duration := 60 * 1000000000

/-- The flags as given on the command line (`none`: flag not supplied). -/
structure Args where
  kubeconfig : Option String
  resyncInterval : Option Duration

/-- The collaborators of `main.go`, which it only calls. -/
structure Env where
  args : Args
  /-- Result of `clientcmd.BuildConfigFromFlags masterUrl kubeconfigPath`. -/
  buildConfigFromFlags : String → String → Except String Config
  /-- Result of `rest.InClusterConfig()`. -/
  inClusterConfig : Except String Config
  /-- Result of `kubernetes.NewForConfig config`. -/
  newForConfig : Config → Except String Clientset
  /-- Whether `eventRouter.Run` may return while its stop channel is open. -/
  runReturnsEarly : Bool
  /-- Whether the informer loop may unwind while its stop channel is open. -/
  pipelineUnwindsEarly : Bool

inductive Severity
  | info | warning
  deriving DecidableEq, Repr

/-- The three glog format strings of main.go, with their argument. -/
inductive LogMsg
  | signalDetected (sig : Signal)
  | startingInformers
  | exitingMain
  deriving DecidableEq, Repr

/-- Go `os.Signal.String()` for the modelled signals. -/
def Signal.name : Signal → String
  | .SIGINT => "interrupt"
  | .SIGTERM => "terminated"
  | .SIGSEGV => "segmentation fault"
  | .SIGABRT => "aborted"
  | .SIGILL => "illegal instruction"
  | .SIGFPE => "floating point exception"
  | .SIGHUP => "hangup"
  | .SIGQUIT => "quit"
  | .SIGUSR1 => "user defined signal 1"
  | .SIGUSR2 => "user defined signal 2"

/-- The text of a log record. -/
def LogMsg.render : LogMsg → String
  | .signalDetected sig => "Signal (" ++ sig.name ++ ") Detected, Shutting Down"
  | .startingInformers => "Starting shared Informer(s)"
  | .exitingMain => "Exiting main()"

/-- What a step does, recorded in execution order in `State.trace`. -/
inductive Action
  | flagParse (kubeconfig : String) (rsInterval : Duration)
  | buildConfigFromFlags (masterUrl : String) (path : String)
  | inClusterConfig
  | checkErr
  | panic (msg : String)
  | newForConfig (cfg : Config)
  | newSharedInformerFactory (cs : Clientset) (resync : Duration)
  | eventsInformer
  | newEventRouter (cs : Clientset)
  | sigHandlerCall
  | makeChan (ch : ChanId)
  | goListener
  | sigHandlerReturn (ch : ChanId)
  | wgAdd (delta : Int)
  | goWorker
  | log (sev : Severity) (msg : LogMsg)
  | informersStart (ch : ChanId)
  | wgWaitDone
  | mainReturn
  | signalNotify (c : ChanId) (sigs : List Signal)
  | recvSignal (sig : Signal)
  | closeChan (ch : ChanId)
  | runCall (ch : ChanId)
  | runReturn
  | wgDone
  | pipelineUnwound
  /-- The runtime sends the caught signal `sig` to the `signal.Notify` channel. -/
  | deliver (sig : Signal)
  deriving DecidableEq, Repr

/-- Who performs an action: one of the four goroutines, or the signal relay of
the operating system and the runtime. -/
inductive Thread
  | main | listener | worker | pipeline | os
  deriving DecidableEq, Repr

/-- Next statement of `main` (and of `sigHandler`, which runs on main's goroutine). -/
inductive MainPc
  | parseFlags      -- lines 59-63
  | resolveConfig   -- lines 66-70
  | checkConfigErr  -- lines 71-73
  | newForConfig    -- line 76
  | checkClientErr  -- lines 77-79
  | newFactory      -- line 82
  | eventsInformer  -- line 83
  | newEventRouter  -- line 89
  | callSigHandler  -- line 90, entering sigHandler
  | shMakeStop      -- line 37
  | shGoListener    -- line 38
  | shReturn        -- line 51, assigning main's stop
  | wgAdd           -- line 92
  | goWorker        -- line 93
  | logStarting     -- line 99
  | startInformers  -- line 100
  | wgWait          -- line 101
  | logExiting      -- line 102
  | ret             -- line 103
  | exited
  deriving DecidableEq, Repr

/-- Next statement of the goroutine launched by `sigHandler`. -/
inductive LisPc
  | notSpawned
  | makeC     -- line 39
  | notify    -- lines 40-46
  | recv      -- line 47
  | log       -- line 48
  | close     -- line 49
  | done
  deriving DecidableEq, Repr

/-- Next statement of the goroutine launched at main.go line 93. -/
inductive WrkPc
  | notSpawned
  | callRun    -- line 95, calling eventRouter.Run(stop)
  | running    -- inside eventRouter.Run
  | deferDone  -- Run has returned; the deferred wg.Done() is next (line 94)
  | finished
  deriving DecidableEq, Repr

/-- The informer loop started by `sharedInformers.Start`. -/
inductive PipePc
  | notStarted
  | running
  | unwound
  deriving DecidableEq, Repr

structure State where
  mainPc : MainPc
  lisPc : LisPc
  wrkPc : WrkPc
  pipePc : PipePc
  /-- The panic message when the process has panicked. -/
  crash : Option String
  -- locals of main
  kubeconfig : String
  rsInterval : Duration
  config : Option Config
  err : Option String
  clientset : Option Clientset
  /-- The informer factory: the client and resync period it was built with. -/
  factory : Option (Clientset × Duration)
  stop : Option ChanId
  wg : Int
  -- local of sigHandler, captured by the listener goroutine
  shStop : Option ChanId
  -- locals of the listener goroutine
  c : Option ChanId
  sig : Option Signal
  -- runtime
  nextChan : Nat
  /-- The channels on which `close` has been executed, in order. -/
  closed : List ChanId
  /-- The `signal.Notify` registration: the channel and its signals. -/
  notify : Option (ChanId × List Signal)
  /-- The one-slot buffer of channel `c`. -/
  cBuf : Option Signal
  /-- The signals the runtime has caught and not yet relayed. -/
  pending : List Signal
  /-- Every signal sent to the process so far, in arrival order. -/
  raised : List Signal
  /-- The stop channel `eventRouter.Run` was called with. -/
  runStop : Option ChanId
  /-- The stop channel `sharedInformers.Start` was called with. -/
  startStop : Option ChanId
  /-- Every executed statement and every relay of a signal, oldest first, with
  who performed it. -/
  trace : List (Thread × Action)
  deriving DecidableEq, Repr

/-- The state before `main` begins (flag variables hold their defaults). -/
def init : State where
  mainPc := .parseFlags
  lisPc := .notSpawned
  wrkPc := .notSpawned
  pipePc := .notStarted
  crash := none
  kubeconfig := ""
  rsInterval := minute * 30
  config := none
  err := none
  clientset := none
  factory := none
  stop := none
  wg := 0
  shStop := none
  c := none
  sig := none
  nextChan := 0
  closed := []
  notify := none
  cBuf := none
  pending := []
  raised := []
  runStop := none
  startStop := none
  trace := []

/-- A scheduling choice: which goroutine runs its next statement, which signal
is sent to the process, or that the runtime relays a pending signal. -/
inductive Event
  | main
  | listener
  | worker
  | pipeline
  | signal (sig : Signal)
  | relay
  deriving DecidableEq, Repr

/-- Whether channel `ch` is closed. -/
def State.isClosed (s : State) (ch : ChanId) : Bool := decide (ch ∈ s.closed)

/-- Whether the optional channel value `ch` denotes a closed channel. -/
def State.stopFired (s : State) (ch : Option ChanId) : Bool :=
  match ch with
  | some ch => s.isClosed ch
  | none => false

/-! ## Steps -/

/-- One statement of `main` / `sigHandler` (main.go lines 36-37, 51, 54-103). -/
def mainStep (env : Env) (s : State) : Option State :=
  match s.mainPc with
  | .parseFlags =>
      let k := env.args.kubeconfig.getD ""
      let r := env.args.resyncInterval.getD (minute * 30)
      some { s with mainPc := .resolveConfig, kubeconfig := k, rsInterval := r,
                    trace := s.trace ++ [(.main, .flagParse k r)] }
  | .resolveConfig =>
      if s.kubeconfig.length > 0 then
        match env.buildConfigFromFlags "" s.kubeconfig with
        | .ok cfg => some { s with mainPc := .checkConfigErr, config := some cfg, err := none,
                                   trace := s.trace ++ [(.main, .buildConfigFromFlags "" s.kubeconfig)] }
        | .error e => some { s with mainPc := .checkConfigErr, config := none, err := some e,
                                    trace := s.trace ++ [(.main, .buildConfigFromFlags "" s.kubeconfig)] }
      else
        match env.inClusterConfig with
        | .ok cfg => some { s with mainPc := .checkConfigErr, config := some cfg, err := none,
                                   trace := s.trace ++ [(.main, .inClusterConfig)] }
        | .error e => some { s with mainPc := .checkConfigErr, config := none, err := some e,
                                    trace := s.trace ++ [(.main, .inClusterConfig)] }
  | .checkConfigErr =>
      match s.err with
      | some e => some { s with crash := some e, trace := s.trace ++ [(.main, .panic e)] }
      | none => some { s with mainPc := .newForConfig, trace := s.trace ++ [(.main, .checkErr)] }
  | .newForConfig =>
      match s.config with
      | none => some { s with crash := some "nil pointer dereference",
                              trace := s.trace ++ [(.main, .panic "nil pointer dereference")] }
      | some cfg =>
        match env.newForConfig cfg with
        | .ok cs => some { s with mainPc := .checkClientErr, clientset := some cs, err := none,
                                  trace := s.trace ++ [(.main, .newForConfig cfg)] }
        | .error e => some { s with mainPc := .checkClientErr, clientset := none, err := some e,
                                    trace := s.trace ++ [(.main, .newForConfig cfg)] }
  | .checkClientErr =>
      match s.err with
      | some e => some { s with crash := some e, trace := s.trace ++ [(.main, .panic e)] }
      | none => some { s with mainPc := .newFactory, trace := s.trace ++ [(.main, .checkErr)] }
  | .newFactory =>
      match s.clientset with
      | none => some { s with crash := some "nil pointer dereference",
                              trace := s.trace ++ [(.main, .panic "nil pointer dereference")] }
      | some cs =>
        some { s with mainPc := .eventsInformer, factory := some (cs, s.rsInterval),
                      trace := s.trace ++ [(.main, .newSharedInformerFactory cs s.rsInterval)] }
  | .eventsInformer =>
      some { s with mainPc := .newEventRouter, trace := s.trace ++ [(.main, .eventsInformer)] }
  | .newEventRouter =>
      match s.clientset with
      | none => some { s with crash := some "nil pointer dereference",
                              trace := s.trace ++ [(.main, .panic "nil pointer dereference")] }
      | some cs =>
        some { s with mainPc := .callSigHandler, trace := s.trace ++ [(.main, .newEventRouter cs)] }
  | .callSigHandler =>
      some { s with mainPc := .shMakeStop, trace := s.trace ++ [(.main, .sigHandlerCall)] }
  | .shMakeStop =>
      some { s with mainPc := .shGoListener, shStop := some s.nextChan,
                    nextChan := s.nextChan + 1,
                    trace := s.trace ++ [(.main, .makeChan s.nextChan)] }
  | .shGoListener =>
      some { s with mainPc := .shReturn, lisPc := .makeC, trace := s.trace ++ [(.main, .goListener)] }
  | .shReturn =>
      match s.shStop with
      | none => none
      | some ch =>
        some { s with mainPc := .wgAdd, stop := some ch,
                      trace := s.trace ++ [(.main, .sigHandlerReturn ch)] }
  | .wgAdd =>
      some { s with mainPc := .goWorker, wg := s.wg + 1, trace := s.trace ++ [(.main, .wgAdd 1)] }
  | .goWorker =>
      some { s with mainPc := .logStarting, wrkPc := .callRun, trace := s.trace ++ [(.main, .goWorker)] }
  | .logStarting =>
      some { s with mainPc := .startInformers,
                    trace := s.trace ++ [(.main, .log .info .startingInformers)] }
  | .startInformers =>
      match s.stop with
      | none => none
      | some ch =>
        some { s with mainPc := .wgWait, pipePc := .running, startStop := some ch,
                      trace := s.trace ++ [(.main, .informersStart ch)] }
  | .wgWait =>
      if s.wg = 0 then
        some { s with mainPc := .logExiting, trace := s.trace ++ [(.main, .wgWaitDone)] }
      else none
  | .logExiting =>
      some { s with mainPc := .ret, trace := s.trace ++ [(.main, .log .warning .exitingMain)] }
  | .ret =>
      some { s with mainPc := .exited, trace := s.trace ++ [(.main, .mainReturn)] }
  | .exited => none

/-- One statement of the goroutine of `sigHandler` (main.go lines 38-50). -/
def lisStep (s : State) : Option State :=
  match s.lisPc with
  | .notSpawned => none
  | .makeC =>
      some { s with lisPc := .notify, c := some s.nextChan, nextChan := s.nextChan + 1,
                    trace := s.trace ++ [(.listener, .makeChan s.nextChan)] }
  | .notify =>
      match s.c with
      | none => none
      | some c =>
        some { s with lisPc := .recv, notify := some (c, notifySet),
                      trace := s.trace ++ [(.listener, .signalNotify c notifySet)] }
  | .recv =>
      match s.cBuf with
      | none => none
      | some g =>
        some { s with lisPc := .log, sig := some g, cBuf := none,
                      trace := s.trace ++ [(.listener, .recvSignal g)] }
  | .log =>
      match s.sig with
      | none => none
      | some g =>
        some { s with lisPc := .close,
                      trace := s.trace ++ [(.listener, .log .warning (.signalDetected g))] }
  | .close =>
      match s.shStop with
      | none => none
      | some ch =>
        if s.isClosed ch then
          some { s with crash := some "close of closed channel",
                        trace := s.trace ++ [(.listener, .panic "close of closed channel")] }
        else
          some { s with lisPc := .done, closed := s.closed ++ [ch],
                        trace := s.trace ++ [(.listener, .closeChan ch)] }
  | .done => none

/-- One statement of the worker goroutine (main.go lines 93-96). -/
def wrkStep (env : Env) (s : State) : Option State :=
  match s.wrkPc with
  | .notSpawned => none
  | .callRun =>
      match s.stop with
      | none => none
      | some ch =>
        some { s with wrkPc := .running, runStop := some ch,
                      trace := s.trace ++ [(.worker, .runCall ch)] }
  | .running =>
      if env.runReturnsEarly || s.stopFired s.runStop then
        some { s with wrkPc := .deferDone, trace := s.trace ++ [(.worker, .runReturn)] }
      else none
  | .deferDone =>
      if s.wg - 1 < 0 then
        some { s with crash := some "sync: negative WaitGroup counter",
                      trace := s.trace ++ [(.worker, .panic "sync: negative WaitGroup counter")] }
      else
        some { s with wrkPc := .finished, wg := s.wg - 1, trace := s.trace ++ [(.worker, .wgDone)] }
  | .finished => none

/-- The informer loop unwinds. -/
def pipeStep (env : Env) (s : State) : Option State :=
  match s.pipePc with
  | .notStarted => none
  | .running =>
      if env.pipelineUnwindsEarly || s.stopFired s.startStop then
        some { s with pipePc := .unwound, trace := s.trace ++ [(.pipeline, .pipelineUnwound)] }
      else none
  | .unwound => none

/-- Whether a `signal.Notify` channel is registered for `g`. -/
def State.catches (s : State) (g : Signal) : Bool :=
  match s.notify with
  | none => false
  | some (_, sigs) => decide (g ∈ sigs)

/-- Whether signal `g`, sent to the process now, ends it. -/
def State.killedBy (s : State) (g : Signal) : Bool := !s.catches g && g.fatal

/-- The signal with the lowest number (the earliest of them in the list). -/
def lowest : List Signal → Option Signal
  | [] => none
  | g :: gs =>
      match lowest gs with
      | none => some g
      | some h => if g.number ≤ h.number then some g else some h

/-- Signal `g` is sent to the process. -/
def sigStep (g : Signal) (s : State) : Option State :=
  if s.catches g then
    some { s with pending := if g ∈ s.pending then s.pending else s.pending ++ [g],
                  raised := s.raised ++ [g] }
  else if g.fatal then none
  else some { s with raised := s.raised ++ [g] }

/-- The runtime relays the pending signal with the lowest number to channel `c`. -/
def relayStep (s : State) : Option State :=
  match s.notify with
  | none => none
  | some _ =>
      match lowest s.pending with
      | none => none
      | some g =>
        some { s with pending := s.pending.erase g,
                      cBuf := if s.cBuf.isNone then some g else s.cBuf,
                      trace := s.trace ++ [(.os, .deliver g)] }

/-- Whether the process has ended (panic, or `main` returned). -/
def State.ended (s : State) : Bool := s.crash.isSome || decide (s.mainPc = .exited)

/-- One step of the program under the scheduling choice `e`; `none` when the
chosen goroutine cannot step (blocked, not running, or the process has ended),
when there is nothing to relay, and when the signal ends the process. -/
def step (env : Env) (e : Event) (s : State) : Option State :=
  if s.ended then none
  else
    match e with
    | .main => mainStep env s
    | .listener => lisStep s
    | .worker => wrkStep env s
    | .pipeline => pipeStep env s
    | .signal g => sigStep g s
    | .relay => relayStep s

/-- Run a schedule from a state. -/
def run (env : Env) : List Event → State → Option State
  | [], s => some s
  | e :: es, s => (step env e s).bind (run env es)

/-- The states the program can be in. -/
def Reachable (env : Env) (s : State) : Prop := ∃ es, run env es init = some s

/-! ## Specification vocabulary -/

/-- Position of a statement of `main` in program order. -/
def MainPc.rank : MainPc → Nat
  | .parseFlags => 0 | .resolveConfig => 1 | .checkConfigErr => 2 | .newForConfig => 3
  | .checkClientErr => 4 | .newFactory => 5 | .eventsInformer => 6 | .newEventRouter => 7
  | .callSigHandler => 8 | .shMakeStop => 9 | .shGoListener => 10 | .shReturn => 11
  | .wgAdd => 12 | .goWorker => 13 | .logStarting => 14 | .startInformers => 15
  | .wgWait => 16 | .logExiting => 17 | .ret => 18 | .exited => 19

def LisPc.rank : LisPc → Nat
  | .notSpawned => 0 | .makeC => 0 | .notify => 1 | .recv => 2 | .log => 3 | .close => 4
  | .done => 5

def WrkPc.rank : WrkPc → Nat
  | .notSpawned => 0 | .callRun => 0 | .running => 1 | .deferDone => 2 | .finished => 3

def PipePc.rank : PipePc → Nat
  | .notStarted => 0 | .running => 0 | .unwound => 1

/-- The actions of one goroutine, in order. -/
def proj (t : Thread) (tr : List (Thread × Action)) : List Action :=
  (tr.filter (fun x => decide (x.1 = t))).map Prod.snd

/-- The value of the `kubeconfig` flag after `flag.Parse`. -/
def kubeconfigOf (env : Env) : String := env.args.kubeconfig.getD ""

/-- The value of the `resync-interval` flag after `flag.Parse`. -/
def resyncOf (env : Env) : Duration := env.args.resyncInterval.getD (minute * 30)

/-- The resolver call main.go lines 66-70 make. -/
def resolverAction (env : Env) : Action :=
  if (kubeconfigOf env).length > 0 then .buildConfigFromFlags "" (kubeconfigOf env)
  else .inClusterConfig

/-- The result of the resolver call of main.go lines 66-70. -/
def resolve (env : Env) : Except String Config :=
  if (kubeconfigOf env).length > 0 then env.buildConfigFromFlags "" (kubeconfigOf env)
  else env.inClusterConfig

/-- The result of client construction (main.go lines 66-79). -/
def clientOf (env : Env) : Except String Clientset :=
  match resolve env with
  | .error e => .error e
  | .ok cfg => env.newForConfig cfg

/-- A non-nil value read back as a successful result. -/
def okOr {α : Type} : Option α → Except String α
  | some v => .ok v
  | none => .error ""

/-- A Go `(value, err)` pair read back as a result. -/
def fromPair {α : Type} (err : Option String) (v : Option α) : Except String α :=
  match err with
  | some e => .error e
  | none => okOr v

/-- Everything `main` does when it is never blocked, in program order, read off
the current values of its variables. -/
def mainScriptOf (s : State) : List Action :=
  [.flagParse s.kubeconfig s.rsInterval,
   (if s.kubeconfig.length > 0 then .buildConfigFromFlags "" s.kubeconfig else .inClusterConfig),
   (if s.mainPc.rank ≤ 2 then .panic (s.crash.getD "") else .checkErr),
   .newForConfig (s.config.getD 0),
   (if s.mainPc.rank ≤ 4 then .panic (s.crash.getD "") else .checkErr),
   .newSharedInformerFactory (s.clientset.getD 0) s.rsInterval,
   .eventsInformer, .newEventRouter (s.clientset.getD 0),
   .sigHandlerCall, .makeChan 0, .goListener, .sigHandlerReturn 0, .wgAdd 1, .goWorker,
   .log .info .startingInformers, .informersStart 0, .wgWaitDone,
   .log .warning .exitingMain, .mainReturn]

/-- Everything the listener goroutine does when it receives signal `g`. -/
def lisScript (g : Signal) : List Action :=
  [.makeChan 1, .signalNotify 1 notifySet, .recvSignal g,
   .log .warning (.signalDetected g), .closeChan 0]

/-- Everything the worker goroutine does. -/
def wrkScript : List Action := [.runCall 0, .runReturn, .wgDone]

/-- The signals of the `signal.Notify` set that were relayed to channel `c`, in
the order of their relay. -/
def qualifying (tr : List (Thread × Action)) : List Signal :=
  tr.filterMap (fun x => match x.2 with
    | .deliver g => if g ∈ notifySet then some g else none
    | _ => none)

/-- The signals relayed to channel `c`, in the order of their relay. -/
def delivered (tr : List (Thread × Action)) : List Signal :=
  tr.filterMap (fun x => match x.2 with
    | .deliver g => some g
    | _ => none)

/-- The log records goroutine `t` has emitted, in order. -/
def logsOf (t : Thread) (tr : List (Thread × Action)) : List (Severity × LogMsg) :=
  (proj t tr).filterMap (fun a => match a with
    | .log sev m => some (sev, m)
    | _ => none)

/-- How many actions `main` has performed. -/
def State.mainProgress (s : State) : Nat :=
  s.mainPc.rank + (if s.crash.isSome then 1 else 0)

structure Inv (env : Env) (s : State) : Prop where
  lis_spawn : s.lisPc = .notSpawned ↔ s.mainPc.rank < 11
  wrk_spawn : s.wrkPc = .notSpawned ↔ s.mainPc.rank < 14
  pipe_start : s.pipePc = .notStarted ↔ s.mainPc.rank < 16
  wg_eq : s.wg = if s.mainPc = .goWorker ∨ (s.wrkPc ≠ .notSpawned ∧ s.wrkPc ≠ .finished) then 1 else 0
  joined : 17 ≤ s.mainPc.rank → s.wrkPc = .finished
  shStop_some : 10 ≤ s.mainPc.rank → s.shStop = some 0
  shStop_none : s.mainPc.rank < 10 → s.shStop = none
  stop_some : 12 ≤ s.mainPc.rank → s.stop = some 0
  stop_none : s.mainPc.rank < 12 → s.stop = none
  lis_vars : s.lisPc ≠ .notSpawned → s.shStop = some 0
  wrk_vars : s.wrkPc ≠ .notSpawned → s.stop = some 0
  wrk_notGo : s.wrkPc ≠ .notSpawned → s.mainPc ≠ .goWorker
  nextChan_eq : s.nextChan = (if s.shStop.isSome then 1 else 0) + (if 1 ≤ s.lisPc.rank then 1 else 0)
  c_eq : s.c = if 1 ≤ s.lisPc.rank then some 1 else none
  notify_eq : s.notify = if 2 ≤ s.lisPc.rank then some (1, notifySet) else none
  closed_eq : s.closed = if s.lisPc = .done then [0] else []
  runStop_eq : s.runStop = if 1 ≤ s.wrkPc.rank then some 0 else none
  startStop_eq : s.startStop = if s.pipePc = .notStarted then none else some 0
  crash_pc : s.crash.isSome → s.mainPc = .checkConfigErr ∨ s.mainPc = .checkClientErr
  crash_err : ∀ m, s.crash = some m → s.err = some m
  flags : 1 ≤ s.mainPc.rank → s.kubeconfig = kubeconfigOf env ∧ s.rsInterval = resyncOf env
  cfg_at : s.mainPc = .checkConfigErr →
    resolve env = fromPair s.err s.config ∧ (s.err = none → s.config.isSome)
  cfg_ok : 3 ≤ s.mainPc.rank → s.config.isSome ∧ resolve env = okOr s.config
  cfg_none : s.mainPc = .newForConfig → s.err = none
  cs_at : s.mainPc = .checkClientErr →
    clientOf env = fromPair s.err s.clientset ∧ (s.err = none → s.clientset.isSome)
  cs_ok : 5 ≤ s.mainPc.rank → s.clientset.isSome ∧ clientOf env = okOr s.clientset
  factory_some : 6 ≤ s.mainPc.rank → s.factory = s.clientset.map (fun cs => (cs, resyncOf env))
  factory_none : s.mainPc.rank < 6 → s.factory = none
  sig_before : s.lisPc.rank ≤ 2 → s.sig = none ∧ s.cBuf = (qualifying s.trace).head?
  sig_after : 3 ≤ s.lisPc.rank → (qualifying s.trace).head?.isSome ∧ s.sig = (qualifying s.trace).head?
  no_early : s.lisPc.rank ≤ 1 → delivered s.trace = []
  main_trace : proj .main s.trace = (mainScriptOf s).take s.mainProgress
  lis_trace : proj .listener s.trace = (lisScript (s.sig.getD .SIGINT)).take s.lisPc.rank
  wrk_trace : proj .worker s.trace = wrkScript.take s.wrkPc.rank
  pipe_trace : proj .pipeline s.trace = [Action.pipelineUnwound].take s.pipePc.rank

/-- What holds of the caught signals in every reachable state. -/
structure SigInv (s : State) : Prop where
  pending_sub : ∀ g ∈ s.pending, g ∈ notifySet
  pending_reg : s.notify = none → s.pending = []
  pending_raised : ∀ g ∈ s.pending, g ∈ s.raised
  qual_raised : ∀ g ∈ qualifying s.trace, g ∈ s.raised

/-- The positions of the four goroutines in a state that has not panicked. -/
def State.pos (s : State) (m l w p : Nat) : Prop :=
  s.crash = none ∧ s.mainPc.rank = m ∧ s.lisPc.rank = l ∧ s.wrkPc.rank = w ∧ s.pipePc.rank = p

/-- The precondition of each action: the goroutine that performs it, the
statement it is at, and the values it reads.  No other pair of goroutine and
action is ever performed. -/
def Fires (env : Env) (s : State) : Thread × Action → Prop
  | (.main, .flagParse _ _) => s.mainPc = .parseFlags
  | (.main, .buildConfigFromFlags m p) =>
      s.mainPc = .resolveConfig ∧ m = "" ∧ p = s.kubeconfig ∧ s.kubeconfig.length > 0
  | (.main, .inClusterConfig) => s.mainPc = .resolveConfig ∧ ¬ s.kubeconfig.length > 0
  | (.main, .checkErr) =>
      (s.mainPc = .checkConfigErr ∨ s.mainPc = .checkClientErr) ∧ s.err = none
  | (.main, .panic e) =>
      ((s.mainPc = .checkConfigErr ∨ s.mainPc = .checkClientErr) ∧ s.err = some e) ∨
      (s.mainPc = .newForConfig ∧ s.config = none) ∨
      ((s.mainPc = .newFactory ∨ s.mainPc = .newEventRouter) ∧ s.clientset = none)
  | (.main, .newForConfig cfg) => s.mainPc = .newForConfig ∧ s.config = some cfg
  | (.main, .newSharedInformerFactory cs d) =>
      s.mainPc = .newFactory ∧ s.clientset = some cs ∧ d = s.rsInterval
  | (.main, .eventsInformer) => s.mainPc = .eventsInformer
  | (.main, .newEventRouter cs) => s.mainPc = .newEventRouter ∧ s.clientset = some cs
  | (.main, .sigHandlerCall) => s.mainPc = .callSigHandler
  | (.main, .makeChan ch) => s.mainPc = .shMakeStop ∧ s.nextChan = ch
  | (.main, .goListener) => s.mainPc = .shGoListener
  | (.main, .sigHandlerReturn ch) => s.mainPc = .shReturn ∧ s.shStop = some ch
  | (.main, .wgAdd d) => s.mainPc = .wgAdd ∧ d = 1
  | (.main, .goWorker) => s.mainPc = .goWorker
  | (.main, .log .info .startingInformers) => s.mainPc = .logStarting
  | (.main, .informersStart ch) => s.mainPc = .startInformers ∧ s.stop = some ch
  | (.main, .wgWaitDone) => s.mainPc = .wgWait ∧ s.wg = 0
  | (.main, .log .warning .exitingMain) => s.mainPc = .logExiting
  | (.main, .mainReturn) => s.mainPc = .ret
  | (.listener, .makeChan c) => s.lisPc = .makeC ∧ s.nextChan = c
  | (.listener, .signalNotify c sigs) => s.lisPc = .notify ∧ s.c = some c ∧ sigs = notifySet
  | (.listener, .recvSignal g) => s.lisPc = .recv ∧ s.cBuf = some g
  | (.listener, .log .warning (.signalDetected g)) => s.lisPc = .log ∧ s.sig = some g
  | (.listener, .closeChan ch) =>
      s.lisPc = .close ∧ s.shStop = some ch ∧ s.isClosed ch = false
  | (.listener, .panic _) => s.lisPc = .close ∧ ∃ ch, s.shStop = some ch ∧ s.isClosed ch = true
  | (.worker, .runCall ch) => s.wrkPc = .callRun ∧ s.stop = some ch
  | (.worker, .runReturn) =>
      s.wrkPc = .running ∧ (env.runReturnsEarly || s.stopFired s.runStop) = true
  | (.worker, .wgDone) => s.wrkPc = .deferDone ∧ ¬ s.wg - 1 < 0
  | (.worker, .panic _) => s.wrkPc = .deferDone ∧ s.wg - 1 < 0
  | (.pipeline, .pipelineUnwound) =>
      s.pipePc = .running ∧ (env.pipelineUnwindsEarly || s.stopFired s.startStop) = true
  | (.os, .deliver g) => s.notify.isSome ∧ lowest s.pending = some g
  | _ => False

/-- In the trace `t`, every occurrence of `b` comes after an occurrence of `a`. -/
def Precedes (a b : Thread × Action) (t : List (Thread × Action)) : Prop :=
  ∀ pre post, t = pre ++ b :: post → a ∈ pre

/-- In the trace `t`, every occurrence of `b` comes after an entry satisfying `P`. -/
def PrecededBy (P : Thread × Action → Prop) (b : Thread × Action)
    (t : List (Thread × Action)) : Prop :=
  ∀ pre post, t = pre ++ b :: post → ∃ a ∈ pre, P a

/-- The signals a schedule sends to the process, in order. -/
def signalsOf (es : List Event) : List Signal :=
  es.filterMap (fun e => match e with
    | .signal g => some g
    | _ => none)

/-- An environment in which client construction succeeds from in-cluster
discovery, and the worker and the informer loop run until the stop channel is
closed. -/
def envInCluster : Env where
  args := ⟨none, none⟩
  buildConfigFromFlags := fun _ p => .error ("stat " ++ p ++ ": no such file or directory")
  inClusterConfig := .ok 7
  newForConfig := fun cfg => .ok (cfg + 1)
  runReturnsEarly := false
  pipelineUnwindsEarly := false

/-- A complete run: start-up, an interrupt, shutdown of the worker, exit of
`main` (the informer loop is never scheduled). -/
def schedGraceful : List Event :=
  List.replicate 16 .main ++
    [.listener, .listener, .signal .SIGINT, .relay, .listener, .listener, .listener,
     .worker, .worker, .worker, .main, .main, .main]

/-- Executable form of `Precedes`. -/
def precedesB (a b : Thread × Action) : List (Thread × Action) → Bool
  | [] => true
  | x :: xs => if x = b then false else if x = a then true else precedesB a b xs

/-- Start-up until both the listener and the worker wait, then two interrupts
in rapid succession, then the listener runs to its end. -/
def schedTwoInterrupts : List Event :=
  List.replicate 16 .main ++
    [.listener, .listener, .worker, .signal .SIGINT, .signal .SIGINT, .relay,
     .listener, .listener, .listener]

/-- Scenario B: a kubeconfig path that cannot be read. -/
def envBadPath : Env where
  args := ⟨some "/bad/path", none⟩
  buildConfigFromFlags := fun _ p => .error ("stat " ++ p ++ ": no such file or directory")
  inClusterConfig := .ok 7
  newForConfig := fun cfg => .ok (cfg + 1)
  runReturnsEarly := false
  pipelineUnwindsEarly := false

/-- An environment with a readable kubeconfig file. -/
def envKubeconfig : Env where
  args := ⟨some "/var/run/kubernetes/admin.kubeconfig", some (minute * 1)⟩
  buildConfigFromFlags := fun _ _ => .ok 3
  inClusterConfig := .error "unable to load in-cluster configuration"
  newForConfig := fun cfg => .ok (cfg + 1)
  runReturnsEarly := false
  pipelineUnwindsEarly := false

/-- An interrupt arrives while `sigHandler` is between launching the listener
goroutine (line 38) and returning (line 51); the listener handles it before
`main` is scheduled again. -/
def schedEarlySignal : List Event :=
  List.replicate 11 .main ++
    [.listener, .listener, .signal .SIGINT, .relay, .listener, .listener, .listener, .main]

/-- Start-up followed by signals that are not in the `signal.Notify` set and
do not end the process. -/
def schedOtherSignals : List Event :=
  List.replicate 16 .main ++
    [.listener, .listener, .signal .SIGUSR1, .signal .SIGUSR2, .worker]

/-- Start-up, then a termination request and an interrupt that are pending
together when the runtime relays, then the listener receives and logs. -/
def schedTermThenInt : List Event :=
  List.replicate 16 .main ++
    [.listener, .listener, .signal .SIGTERM, .signal .SIGINT, .relay, .relay,
     .listener, .listener, .listener]

/-- The listener goroutine has been launched and has made its channel, and
`signal.Notify` has not run yet. -/
def schedBeforeNotify : List Event :=
  List.replicate 12 .main ++ [.listener]

/-! ## Invariants of the reachable states -/

@[simp] theorem mainPc_rank_eq :
    MainPc.parseFlags.rank = 0 ∧ MainPc.resolveConfig.rank = 1 ∧ MainPc.checkConfigErr.rank = 2 ∧
    MainPc.newForConfig.rank = 3 ∧ MainPc.checkClientErr.rank = 4 ∧ MainPc.newFactory.rank = 5 ∧
    MainPc.eventsInformer.rank = 6 ∧ MainPc.newEventRouter.rank = 7 ∧
    MainPc.callSigHandler.rank = 8 ∧ MainPc.shMakeStop.rank = 9 ∧ MainPc.shGoListener.rank = 10 ∧
    MainPc.shReturn.rank = 11 ∧ MainPc.wgAdd.rank = 12 ∧ MainPc.goWorker.rank = 13 ∧
    MainPc.logStarting.rank = 14 ∧ MainPc.startInformers.rank = 15 ∧ MainPc.wgWait.rank = 16 ∧
    MainPc.logExiting.rank = 17 ∧ MainPc.ret.rank = 18 ∧ MainPc.exited.rank = 19 := by
  decide

@[simp] theorem lisPc_rank_eq :
    LisPc.notSpawned.rank = 0 ∧ LisPc.makeC.rank = 0 ∧ LisPc.notify.rank = 1 ∧
    LisPc.recv.rank = 2 ∧ LisPc.log.rank = 3 ∧ LisPc.close.rank = 4 ∧ LisPc.done.rank = 5 := by
  decide

@[simp] theorem wrkPc_rank_eq :
    WrkPc.notSpawned.rank = 0 ∧ WrkPc.callRun.rank = 0 ∧ WrkPc.running.rank = 1 ∧
    WrkPc.deferDone.rank = 2 ∧ WrkPc.finished.rank = 3 := by
  decide

@[simp] theorem pipePc_rank_eq :
    PipePc.notStarted.rank = 0 ∧ PipePc.running.rank = 0 ∧ PipePc.unwound.rank = 1 := by
  decide

@[simp] theorem fromPair_none {α : Type} (v : Option α) : fromPair none v = okOr v := rfl

@[simp] theorem fromPair_some {α : Type} (e : String) (v : Option α) :
    fromPair (some e) v = .error e := rfl

@[simp] theorem okOr_some {α : Type} (v : α) : okOr (some v) = .ok v := rfl

theorem proj_snoc (t t' : Thread) (a : Action) (tr : List (Thread × Action)) :
    proj t (tr ++ [(t', a)]) = if t' = t then proj t tr ++ [a] else proj t tr := by
  unfold proj
  by_cases h : t' = t <;> simp [List.filter_append, List.filter_cons, h]

theorem qualifying_snoc (t : Thread) (a : Action) (tr : List (Thread × Action)) :
    qualifying (tr ++ [(t, a)]) = qualifying tr ++
      (match a with
       | .deliver g => if g ∈ notifySet then [g] else []
       | _ => []) := by
  unfold qualifying
  rw [List.filterMap_append]
  congr 1
  cases a with
  | deliver g => by_cases h : g ∈ notifySet <;> simp [List.filterMap_cons, h]
  | _ => simp [List.filterMap_cons]

theorem delivered_snoc (t : Thread) (a : Action) (tr : List (Thread × Action)) :
    delivered (tr ++ [(t, a)]) = delivered tr ++
      (match a with
       | .deliver g => [g]
       | _ => []) := by
  unfold delivered
  rw [List.filterMap_append]
  congr 1
  cases a <;> simp [List.filterMap_cons]

theorem inv_init (env : Env) : Inv env init := by
  constructor <;> simp [init, proj, qualifying, delivered, mainScriptOf,
    State.mainProgress]

set_option maxHeartbeats 4000000 in
theorem inv_main (env : Env) (s s' : State) (h : Inv env s) (hc : s.ended = false)
    (hs : mainStep env s = some s') : Inv env s' := by
  obtain ⟨h1, h2, h3, h4, h5, h6, h7, h8, h9, h10, h11, h12, h13, h14, h15, h16, h17, h18, h19,
    h20, h21, h22, h23, h24, h25, h26, h27, h28, h29, h30, h31, h32, h33, h34, h35⟩ := h
  simp only [State.ended, Bool.or_eq_false_iff, decide_eq_false_iff_not] at hc
  obtain ⟨hc1, hc2⟩ := hc
  unfold mainStep at hs
  cases hpc : s.mainPc <;> simp only [hpc] at hs <;>
    simp [hpc] at hc1 hc2 h1 h2 h3 h4 h5 h6 h7 h8 h9 h10 h11 h12 h13 h14 h15 h16 h17 h18 h19 h20 h21 h22 h23 h24 h25 h26 h27 h28 h29 h30 h31 h32 h33 h34 h35 <;>
    (try simp [State.isClosed, *] at hs) <;>
    (try split at hs) <;> (try split at hs) <;>
    (try simp [*] at hs) <;>
    (try (obtain ⟨hg, hs⟩ := hs)) <;>
    (try subst hs) <;> constructor <;>
    (try dsimp only) <;>
    (try assumption) <;>
    (try simp [State.mainProgress, proj_snoc, qualifying_snoc, delivered_snoc, mainScriptOf, lisScript, wrkScript, *]) <;>
    (try assumption) <;> (try omega) <;>
    (try simp [clientOf, *]) <;> (try simp [resolve, *]) <;> (try simp [kubeconfigOf, resyncOf]) <;>
    (try simp_all)

set_option maxHeartbeats 4000000 in
theorem inv_lis (env : Env) (s s' : State) (h : Inv env s) (hc : s.ended = false)
    (hs : lisStep s = some s') : Inv env s' := by
  obtain ⟨h1, h2, h3, h4, h5, h6, h7, h8, h9, h10, h11, h12, h13, h14, h15, h16, h17, h18, h19,
    h20, h21, h22, h23, h24, h25, h26, h27, h28, h29, h30, h31, h32, h33, h34, h35⟩ := h
  simp only [State.ended, Bool.or_eq_false_iff, decide_eq_false_iff_not] at hc
  obtain ⟨hc1, hc2⟩ := hc
  unfold lisStep at hs
  cases hpc : s.lisPc <;> simp only [hpc] at hs <;>
    simp [hpc] at hc1 hc2 h1 h2 h3 h4 h5 h6 h7 h8 h9 h10 h11 h12 h13 h14 h15 h16 h17 h18 h19 h20 h21 h22 h23 h24 h25 h26 h27 h28 h29 h30 h31 h32 h33 h34 h35 <;>
    (try simp [State.isClosed, *] at hs) <;>
    (try split at hs) <;> (try split at hs) <;>
    (try simp [*] at hs) <;>
    (try (obtain ⟨hg, hs⟩ := hs)) <;>
    (try subst hs) <;> constructor <;>
    (try dsimp only) <;>
    (try assumption) <;>
    (try simp [State.mainProgress, proj_snoc, qualifying_snoc, delivered_snoc, mainScriptOf, lisScript, wrkScript, *]) <;>
    (try assumption) <;> (try omega) <;> (try simp_all) <;>
    (try (cases hq : (qualifying s.trace).head? <;> simp_all))

set_option maxHeartbeats 4000000 in
theorem inv_wrk (env : Env) (s s' : State) (h : Inv env s) (hc : s.ended = false)
    (hs : wrkStep env s = some s') : Inv env s' := by
  obtain ⟨h1, h2, h3, h4, h5, h6, h7, h8, h9, h10, h11, h12, h13, h14, h15, h16, h17, h18, h19,
    h20, h21, h22, h23, h24, h25, h26, h27, h28, h29, h30, h31, h32, h33, h34, h35⟩ := h
  simp only [State.ended, Bool.or_eq_false_iff, decide_eq_false_iff_not] at hc
  obtain ⟨hc1, hc2⟩ := hc
  unfold wrkStep at hs
  cases hpc : s.wrkPc <;> simp only [hpc] at hs <;>
    simp [hpc] at hc1 hc2 h1 h2 h3 h4 h5 h6 h7 h8 h9 h10 h11 h12 h13 h14 h15 h16 h17 h18 h19 h20 h21 h22 h23 h24 h25 h26 h27 h28 h29 h30 h31 h32 h33 h34 h35 <;>
    (try simp [State.isClosed, *] at hs) <;>
    (try split at hs) <;> (try split at hs) <;>
    (try simp [*] at hs) <;>
    (try (obtain ⟨hg, hs⟩ := hs)) <;>
    (try subst hs) <;> constructor <;>
    (try dsimp only) <;>
    (try assumption) <;>
    (try simp [State.mainProgress, proj_snoc, qualifying_snoc, delivered_snoc, mainScriptOf, lisScript, wrkScript, *]) <;>
    (try assumption) <;> (try omega) <;> (try simp_all) <;>
    (try (cases hq : (qualifying s.trace).head? <;> simp_all))

set_option maxHeartbeats 4000000 in
theorem inv_pipe (env : Env) (s s' : State) (h : Inv env s) (hc : s.ended = false)
    (hs : pipeStep env s = some s') : Inv env s' := by
  obtain ⟨h1, h2, h3, h4, h5, h6, h7, h8, h9, h10, h11, h12, h13, h14, h15, h16, h17, h18, h19,
    h20, h21, h22, h23, h24, h25, h26, h27, h28, h29, h30, h31, h32, h33, h34, h35⟩ := h
  simp only [State.ended, Bool.or_eq_false_iff, decide_eq_false_iff_not] at hc
  obtain ⟨hc1, hc2⟩ := hc
  unfold pipeStep at hs
  cases hpc : s.pipePc <;> simp only [hpc] at hs <;>
    simp [hpc] at hc1 hc2 h1 h2 h3 h4 h5 h6 h7 h8 h9 h10 h11 h12 h13 h14 h15 h16 h17 h18 h19 h20 h21 h22 h23 h24 h25 h26 h27 h28 h29 h30 h31 h32 h33 h34 h35 <;>
    (try simp [State.isClosed, *] at hs) <;>
    (try split at hs) <;> (try split at hs) <;>
    (try simp [*] at hs) <;>
    (try (obtain ⟨hg, hs⟩ := hs)) <;>
    (try subst hs) <;> constructor <;>
    (try dsimp only) <;>
    (try assumption) <;>
    (try simp [State.mainProgress, proj_snoc, qualifying_snoc, delivered_snoc, mainScriptOf, lisScript, wrkScript, *]) <;>
    (try assumption) <;> (try omega) <;> (try simp_all) <;>
    (try (cases hq : (qualifying s.trace).head? <;> simp_all))

theorem lowest_mem (l : List Signal) (g : Signal) (h : lowest l = some g) : g ∈ l := by
  induction l generalizing g with
  | nil => simp [lowest] at h
  | cons x xs ih =>
    simp only [lowest] at h
    cases hl : lowest xs with
    | none =>
      simp [hl] at h
      simp [h]
    | some y =>
      simp only [hl] at h
      split at h
      · simp at h
        simp [h]
      · simp at h
        subst h
        exact List.mem_cons_of_mem _ (ih y hl)

theorem lowest_ne_nil (l : List Signal) (h : l ≠ []) : ∃ g, lowest l = some g := by
  cases l with
  | nil => exact absurd rfl h
  | cons x xs =>
    simp only [lowest]
    cases lowest xs with
    | none => exact ⟨x, rfl⟩
    | some y =>
      by_cases hxy : x.number ≤ y.number
      · exact ⟨x, by simp [hxy]⟩
      · exact ⟨y, by simp [hxy]⟩

theorem inv_sig (env : Env) (g : Signal) (s s' : State) (h : Inv env s)
    (hs : sigStep g s = some s') : Inv env s' := by
  obtain ⟨h1, h2, h3, h4, h5, h6, h7, h8, h9, h10, h11, h12, h13, h14, h15, h16, h17, h18, h19,
    h20, h21, h22, h23, h24, h25, h26, h27, h28, h29, h30, h31, h32, h33, h34, h35⟩ := h
  unfold sigStep at hs
  split at hs
  · cases hs
    exact ⟨h1, h2, h3, h4, h5, h6, h7, h8, h9, h10, h11, h12, h13, h14, h15, h16, h17, h18,
      h19, h20, h21, h22, h23, h24, h25, h26, h27, h28, h29, h30, h31, h32, h33, h34, h35⟩
  · split at hs
    · cases hs
    · cases hs
      exact ⟨h1, h2, h3, h4, h5, h6, h7, h8, h9, h10, h11, h12, h13, h14, h15, h16, h17, h18,
        h19, h20, h21, h22, h23, h24, h25, h26, h27, h28, h29, h30, h31, h32, h33, h34, h35⟩

set_option maxHeartbeats 4000000 in
theorem inv_relay (env : Env) (s s' : State) (h : Inv env s) (hsig : SigInv s)
    (hs : relayStep s = some s') : Inv env s' := by
  obtain ⟨h1, h2, h3, h4, h5, h6, h7, h8, h9, h10, h11, h12, h13, h14, h15, h16, h17, h18, h19,
    h20, h21, h22, h23, h24, h25, h26, h27, h28, h29, h30, h31, h32, h33, h34, h35⟩ := h
  unfold relayStep at hs
  split at hs
  · cases hs
  · rename_i reg hreg
    split at hs
    · cases hs
    · rename_i g hlow
      have hg : g ∈ notifySet := hsig.pending_sub g (lowest_mem _ _ hlow)
      cases hs
      cases hpc : s.lisPc <;>
        simp [hpc, hreg] at h1 h2 h3 h4 h5 h6 h7 h8 h9 h10 h11 h12 h13 h14 h15 h16 h17 h18 h19 h20 h21 h22 h23 h24 h25 h26 h27 h28 h29 h30 h31 h32 h33 h34 h35 <;>
        constructor <;>
        (try dsimp only) <;>
        (try assumption) <;>
        (try simp [State.mainProgress, proj_snoc, qualifying_snoc, delivered_snoc, mainScriptOf, lisScript, wrkScript, hg, *]) <;>
        (try assumption) <;> (try omega) <;> (try simp_all) <;>
        (try (cases hq : (qualifying s.trace).head? <;> simp_all)) <;>
        (try (cases hq2 : qualifying s.trace <;> simp_all))

theorem siginv_init : SigInv init := by
  constructor <;> simp [init, qualifying]

set_option maxHeartbeats 1000000 in
/-- The steps of the four goroutines touch neither the caught signals nor the
relayed ones. -/
theorem step_sig_frame (env : Env) (e : Event) (s s' : State)
    (he : e = .main ∨ e = .listener ∨ e = .worker ∨ e = .pipeline)
    (hs : step env e s = some s') :
    s'.pending = s.pending ∧ s'.raised = s.raised ∧
      qualifying s'.trace = qualifying s.trace ∧ (s'.notify = none → s.notify = none) := by
  unfold step at hs
  split at hs
  · cases hs
  · rcases he with rfl | rfl | rfl | rfl
    · simp only [mainStep] at hs
      cases hpc : s.mainPc <;> simp only [hpc] at hs <;>
        (try split at hs) <;> (try split at hs) <;> cases hs <;> simp [qualifying_snoc]
    · simp only [lisStep] at hs
      cases hpc : s.lisPc <;> simp only [hpc] at hs <;>
        (try split at hs) <;> (try split at hs) <;> cases hs <;> simp [qualifying_snoc]
    · simp only [wrkStep] at hs
      cases hpc : s.wrkPc <;> simp only [hpc] at hs <;>
        (try split at hs) <;> (try split at hs) <;> cases hs <;> simp [qualifying_snoc]
    · simp only [pipeStep] at hs
      cases hpc : s.pipePc <;> simp only [hpc] at hs <;>
        (try split at hs) <;> (try split at hs) <;> cases hs <;> simp [qualifying_snoc]

theorem siginv_step (env : Env) (e : Event) (s s' : State) (hi : Inv env s) (h : SigInv s)
    (hs : step env e s = some s') : SigInv s' := by
  cases e with
  | main =>
    obtain ⟨f1, f2, f3, f4⟩ := step_sig_frame env _ s s' (by simp) hs
    exact ⟨f1 ▸ h.pending_sub, fun hn => f1 ▸ h.pending_reg (f4 hn),
      f1 ▸ f2 ▸ h.pending_raised, f3 ▸ f2 ▸ h.qual_raised⟩
  | listener =>
    obtain ⟨f1, f2, f3, f4⟩ := step_sig_frame env _ s s' (by simp) hs
    exact ⟨f1 ▸ h.pending_sub, fun hn => f1 ▸ h.pending_reg (f4 hn),
      f1 ▸ f2 ▸ h.pending_raised, f3 ▸ f2 ▸ h.qual_raised⟩
  | worker =>
    obtain ⟨f1, f2, f3, f4⟩ := step_sig_frame env _ s s' (by simp) hs
    exact ⟨f1 ▸ h.pending_sub, fun hn => f1 ▸ h.pending_reg (f4 hn),
      f1 ▸ f2 ▸ h.pending_raised, f3 ▸ f2 ▸ h.qual_raised⟩
  | pipeline =>
    obtain ⟨f1, f2, f3, f4⟩ := step_sig_frame env _ s s' (by simp) hs
    exact ⟨f1 ▸ h.pending_sub, fun hn => f1 ▸ h.pending_reg (f4 hn),
      f1 ▸ f2 ▸ h.pending_raised, f3 ▸ f2 ▸ h.qual_raised⟩
  | signal g =>
    obtain ⟨p1, p2, p3, p4⟩ := h
    have hn := hi.notify_eq
    unfold step at hs
    split at hs
    · cases hs
    · simp only [sigStep] at hs
      split at hs
      · rename_i hcatch
        cases hs
        have hgn : s.notify ≠ none ∧ g ∈ notifySet := by
          unfold State.catches at hcatch
          split at hcatch
          · cases hcatch
          · rename_i c sigs hreg
            rw [hreg] at hn
            split at hn
            · simp at hn
              simp at hcatch
              exact ⟨by simp [hreg], hn.2 ▸ hcatch⟩
            · cases hn
        constructor
        · intro x hx
          dsimp only at hx
          split at hx
          · exact p1 x hx
          · rcases List.mem_append.mp hx with hx | hx
            · exact p1 x hx
            · simp at hx
              exact hx ▸ hgn.2
        · intro hnone
          exact absurd hnone hgn.1
        · intro x hx
          dsimp only at hx ⊢
          split at hx
          · exact List.mem_append_left _ (p3 x hx)
          · rcases List.mem_append.mp hx with hx | hx
            · exact List.mem_append_left _ (p3 x hx)
            · exact List.mem_append_right _ hx
        · intro x hx
          exact List.mem_append_left _ (p4 x hx)
      · split at hs
        · cases hs
        · cases hs
          exact ⟨p1, p2, fun x hx => List.mem_append_left _ (p3 x hx),
            fun x hx => List.mem_append_left _ (p4 x hx)⟩
  | relay =>
    obtain ⟨p1, p2, p3, p4⟩ := h
    unfold step at hs
    split at hs
    · cases hs
    · simp only [relayStep] at hs
      split at hs
      · cases hs
      · rename_i reg hreg
        split at hs
        · cases hs
        · rename_i g hlow
          cases hs
          have hmem := lowest_mem _ _ hlow
          constructor
          · intro x hx
            exact p1 x (List.mem_of_mem_erase hx)
          · intro hnone
            simp [hreg] at hnone
          · intro x hx
            exact p3 x (List.mem_of_mem_erase hx)
          · intro x hx
            rw [qualifying_snoc] at hx
            rcases List.mem_append.mp hx with hx | hx
            · exact p4 x hx
            · simp only at hx
              split at hx
              · simp at hx
                exact hx ▸ p3 g hmem
              · simp at hx

/-! ## Reachability -/

theorem inv_step (env : Env) (e : Event) (s s' : State) (h : Inv env s) (hsig : SigInv s)
    (hs : step env e s = some s') : Inv env s' := by
  unfold step at hs
  split at hs
  · cases hs
  · rename_i hc
    have hc' : s.ended = false := by simpa using hc
    cases e with
    | main => exact inv_main env s s' h hc' hs
    | listener => exact inv_lis env s s' h hc' hs
    | worker => exact inv_wrk env s s' h hc' hs
    | pipeline => exact inv_pipe env s s' h hc' hs
    | signal g => exact inv_sig env g s s' h hs
    | relay => exact inv_relay env s s' h hsig hs

theorem run_append (env : Env) (es es' : List Event) (s : State) :
    run env (es ++ es') s = (run env es s).bind (run env es') := by
  induction es generalizing s with
  | nil => simp [run]
  | cons e es ih =>
    simp only [List.cons_append, run]
    cases step env e s with
    | none => simp
    | some s1 => simpa using ih s1

theorem run_snoc (env : Env) (es : List Event) (e : Event) (s : State) :
    run env (es ++ [e]) s = (run env es s).bind (step env e) := by
  rw [run_append]
  cases run env es s with
  | none => simp
  | some s1 => simp [run]

theorem reachable_init (env : Env) : Reachable env init := ⟨[], rfl⟩

theorem reachable_step (env : Env) (e : Event) (s s' : State) (h : Reachable env s)
    (hs : step env e s = some s') : Reachable env s' := by
  obtain ⟨es, hes⟩ := h
  exact ⟨es ++ [e], by simp [run_snoc, hes, hs]⟩

theorem reachable_run (env : Env) (es : List Event) (s s' : State) (h : Reachable env s)
    (hs : run env es s = some s') : Reachable env s' := by
  obtain ⟨es0, hes⟩ := h
  exact ⟨es0 ++ es, by simp [run_append, hes, hs]⟩

/-- Induction over the executions of the program. -/
theorem reachable_induction (env : Env) (P : State → Prop) (h0 : P init)
    (hstep : ∀ s e s', Reachable env s → P s → step env e s = some s' → P s') :
    ∀ s, Reachable env s → P s := by
  intro s ⟨es, hes⟩
  induction es using List.reverseRecOn generalizing s with
  | nil =>
    simp only [run, Option.some.injEq] at hes
    exact hes ▸ h0
  | append_singleton es e ih =>
    rw [run_snoc] at hes
    cases hr : run env es init with
    | none => simp [hr] at hes
    | some s1 =>
      simp only [hr, Option.some_bind] at hes
      exact hstep s1 e s ⟨es, hr⟩ (ih s1 hr) hes

theorem invs_reachable (env : Env) (s : State) (h : Reachable env s) :
    Inv env s ∧ SigInv s :=
  reachable_induction env (fun s => Inv env s ∧ SigInv s) ⟨inv_init env, siginv_init⟩
    (fun s e s' _ hi hs =>
      ⟨inv_step env e s s' hi.1 hi.2 hs, siginv_step env e s s' hi.1 hi.2 hs⟩) s h

theorem inv_reachable (env : Env) (s : State) (h : Reachable env s) : Inv env s :=
  (invs_reachable env s h).1

theorem siginv_reachable (env : Env) (s : State) (h : Reachable env s) : SigInv s :=
  (invs_reachable env s h).2

set_option maxHeartbeats 2000000 in
/-- Every step but the arrival of a signal appends exactly one entry to the
trace, and the entry's precondition held in the state it was taken from; the
arrival of a signal leaves the trace as it is. -/
theorem step_appends (env : Env) (e : Event) (s s' : State)
    (hs : step env e s = some s') :
    s'.trace = s.trace ∨ ∃ x, s'.trace = s.trace ++ [x] ∧ Fires env s x := by
  unfold step at hs
  split at hs
  · cases hs
  · cases e with
    | main =>
      simp only [mainStep] at hs
      cases hpc : s.mainPc <;> simp only [hpc] at hs <;>
        (try split at hs) <;> (try split at hs) <;> cases hs <;>
        exact Or.inr ⟨_, rfl, by simp_all [Fires]⟩
    | listener =>
      simp only [lisStep] at hs
      cases hpc : s.lisPc <;> simp only [hpc] at hs <;>
        (try split at hs) <;> (try split at hs) <;> cases hs <;>
        exact Or.inr ⟨_, rfl, by simp_all [Fires]⟩
    | worker =>
      simp only [wrkStep] at hs
      cases hpc : s.wrkPc <;> simp only [hpc] at hs <;>
        (try split at hs) <;> (try split at hs) <;> cases hs <;>
        exact Or.inr ⟨_, rfl, by simp_all [Fires]⟩
    | pipeline =>
      simp only [pipeStep] at hs
      cases hpc : s.pipePc <;> simp only [hpc] at hs <;>
        (try split at hs) <;> (try split at hs) <;> cases hs <;>
        exact Or.inr ⟨_, rfl, by simp_all [Fires]⟩
    | signal g =>
      simp only [sigStep] at hs
      split at hs
      · cases hs
        exact Or.inl rfl
      · split at hs <;> cases hs
        exact Or.inl rfl
    | relay =>
      simp only [relayStep] at hs
      split at hs
      · cases hs
      · split at hs <;> cases hs
        exact Or.inr ⟨_, rfl, by simp_all [Fires]⟩

/-! ## Order of actions in the trace -/

theorem mem_proj (t : Thread) (a : Action) (tr : List (Thread × Action)) :
    a ∈ proj t tr ↔ (t, a) ∈ tr := by
  unfold proj
  simp only [List.mem_map, List.mem_filter, decide_eq_true_eq]
  constructor
  · rintro ⟨⟨t', a'⟩, ⟨hm, ht⟩, ha⟩
    simp only at ht ha
    subst ht ha
    exact hm
  · intro h
    exact ⟨(t, a), ⟨h, rfl⟩, rfl⟩

theorem count_proj (t : Thread) (a : Action) (tr : List (Thread × Action)) :
    tr.count (t, a) = (proj t tr).count a := by
  induction tr with
  | nil => simp [proj]
  | cons x tr ih =>
    obtain ⟨t', a'⟩ := x
    by_cases ht : t' = t
    · subst ht
      by_cases ha : a' = a
      · subst ha
        simp [proj, List.filter_cons] at ih ⊢
        exact ih
      · have hne : ¬ ((t', a') = (t', a)) := by simp [ha]
        simp [proj, List.filter_cons, List.count_cons, ha, hne] at ih ⊢
        exact ih
    · have hne : ¬ ((t', a') = (t, a)) := by simp [ht]
      simp [proj, List.filter_cons, List.count_cons, ht, hne] at ih ⊢
      exact ih

theorem precededBy_nil (P : Thread × Action → Prop) (b : Thread × Action) :
    PrecededBy P b [] := by
  intro pre post h
  simp at h

theorem precededBy_snoc (P : Thread × Action → Prop) (b x : Thread × Action)
    (t : List (Thread × Action)) (h : PrecededBy P b t) (hx : x = b → ∃ a ∈ t, P a) :
    PrecededBy P b (t ++ [x]) := by
  intro pre post heq
  rcases List.eq_nil_or_concat post with hp | ⟨post', y, hp⟩
  · subst hp
    have h1 : t ++ [x] = pre ++ [b] := by simpa using heq
    obtain ⟨h2, h3⟩ := List.append_inj' h1 rfl
    have h4 : x = b := by simpa using h3
    subst h2
    exact hx h4
  · subst hp
    have h1 : t ++ [x] = (pre ++ b :: post') ++ [y] := by simpa using heq
    obtain ⟨h2, -⟩ := List.append_inj' h1 rfl
    exact h pre post' h2

/-- An action is always preceded by an entry satisfying `P` if that entry is
present whenever the action's precondition holds. -/
theorem precededBy_reachable (env : Env) (P : Thread × Action → Prop) (b : Thread × Action)
    (hf : ∀ s, Reachable env s → Fires env s b → ∃ a ∈ s.trace, P a) :
    ∀ s, Reachable env s → PrecededBy P b s.trace := by
  apply reachable_induction
  · exact precededBy_nil P b
  · intro s e s' hr ih hs
    rcases step_appends env e s s' hs with hx | ⟨x, hx, hfire⟩
    · rw [hx]
      exact ih
    · rw [hx]
      apply precededBy_snoc P b x s.trace ih
      intro hxb
      subst hxb
      exact hf s hr hfire

theorem precedes_reachable (env : Env) (a b : Thread × Action)
    (hf : ∀ s, Reachable env s → Fires env s b → a ∈ s.trace) :
    ∀ s, Reachable env s → Precedes a b s.trace := by
  intro s hr pre post heq
  obtain ⟨a', ha', rfl⟩ :=
    precededBy_reachable env (fun x => x = a) b
      (fun s hr hfire => ⟨a, hf s hr hfire, rfl⟩) s hr pre post heq
  exact ha'

theorem precedes_mem (a b : Thread × Action) (t : List (Thread × Action))
    (h : Precedes a b t) (hb : b ∈ t) : a ∈ t := by
  obtain ⟨pre, post, rfl⟩ := List.append_of_mem hb
  exact List.mem_append_left _ (h pre post rfl)

theorem precedesB_iff (a b : Thread × Action) (t : List (Thread × Action)) :
    precedesB a b t = true ↔ Precedes a b t := by
  induction t with
  | nil =>
    simp only [precedesB, true_iff]
    intro pre post h
    simp at h
  | cons x xs ih =>
    by_cases hb : x = b
    · simp only [precedesB, hb, if_true]
      constructor
      · intro h
        cases h
      · intro h
        have := h [] xs (by simp [hb])
        simp at this
    · by_cases ha : x = a
      · subst ha
        simp only [precedesB, hb, if_true, if_false, true_iff]
        intro pre post h
        cases pre with
        | nil =>
          simp only [List.nil_append, List.cons.injEq] at h
          exact absurd h.1 hb
        | cons p pre' =>
          simp only [List.cons_append, List.cons.injEq] at h
          rw [← h.1]
          exact List.mem_cons_self _ _
      · simp only [precedesB, hb, ha, if_false, ih]
        constructor
        · intro h pre post heq
          cases pre with
          | nil =>
            simp only [List.nil_append, List.cons.injEq] at heq
            exact absurd heq.1 hb
          | cons p pre' =>
            simp only [List.cons_append, List.cons.injEq] at heq
            exact List.mem_cons_of_mem _ (h pre' post heq.2)
        · intro h pre post heq
          have := h (x :: pre) post (by simp [heq])
          rcases List.mem_cons.mp this with h1 | h1
          · exact absurd h1.symm ha
          · exact h1

/-- Every entry of the trace was performed in a reachable state in which its
precondition held. -/
theorem trace_fires (env : Env) :
    ∀ s, Reachable env s → ∀ x ∈ s.trace, ∃ s0, Reachable env s0 ∧ Fires env s0 x := by
  apply reachable_induction
  · intro x hx
    simp [init] at hx
  · intro s e s' hr ih hs x hx
    rcases step_appends env e s s' hs with hy | ⟨y, hy, hfire⟩
    · rw [hy] at hx
      exact ih x hx
    · rw [hy, List.mem_append, List.mem_singleton] at hx
      rcases hx with hx | hx
      · exact ih x hx
      · subst hx
        exact ⟨s, hr, hfire⟩

set_option maxHeartbeats 2000000 in
theorem step_closed_mono (env : Env) (e : Event) (s s' : State)
    (hs : step env e s = some s') : ∀ ch, ch ∈ s.closed → ch ∈ s'.closed := by
  unfold step at hs
  split at hs
  · cases hs
  · cases e with
    | main =>
      simp only [mainStep] at hs
      cases hpc : s.mainPc <;> simp only [hpc] at hs <;>
        (try split at hs) <;> (try split at hs) <;> cases hs <;> simp
    | listener =>
      simp only [lisStep] at hs
      cases hpc : s.lisPc <;> simp only [hpc] at hs <;>
        (try split at hs) <;> (try split at hs) <;> cases hs <;> simp
      · intro ch h
        exact Or.inl h
    | worker =>
      simp only [wrkStep] at hs
      cases hpc : s.wrkPc <;> simp only [hpc] at hs <;>
        (try split at hs) <;> (try split at hs) <;> cases hs <;> simp
    | pipeline =>
      simp only [pipeStep] at hs
      cases hpc : s.pipePc <;> simp only [hpc] at hs <;>
        (try split at hs) <;> (try split at hs) <;> cases hs <;> simp
    | signal g =>
      simp only [sigStep] at hs
      split at hs
      · cases hs
        simp
      · split at hs <;> cases hs
        simp
    | relay =>
      simp only [relayStep] at hs
      split at hs
      · cases hs
      · split at hs <;> cases hs
        simp

theorem run_closed_mono (env : Env) (es : List Event) (s s' : State)
    (hs : run env es s = some s') : ∀ ch, ch ∈ s.closed → ch ∈ s'.closed := by
  induction es generalizing s with
  | nil =>
    simp only [run, Option.some.injEq] at hs
    subst hs
    exact fun _ h => h
  | cons e es ih =>
    simp only [run] at hs
    cases h1 : step env e s with
    | none => simp [h1] at hs
    | some s1 =>
      simp only [h1, Option.some_bind] at hs
      intro ch hch
      exact ih s1 hs ch (step_closed_mono env e s s1 h1 ch hch)

/-! ## Facts read off the invariant -/

theorem main_mem_iff (env : Env) (s : State) (h : Inv env s) (a : Action) :
    (Thread.main, a) ∈ s.trace ↔ a ∈ (mainScriptOf s).take s.mainProgress := by
  rw [← mem_proj, h.main_trace]

theorem worker_mem_iff (env : Env) (s : State) (h : Inv env s) (a : Action) :
    (Thread.worker, a) ∈ s.trace ↔ a ∈ wrkScript.take s.wrkPc.rank := by
  rw [← mem_proj, h.wrk_trace]

theorem listener_mem_iff (env : Env) (s : State) (h : Inv env s) (a : Action) :
    (Thread.listener, a) ∈ s.trace ↔
      a ∈ (lisScript (s.sig.getD .SIGINT)).take s.lisPc.rank := by
  rw [← mem_proj, h.lis_trace]

/-! ## The claims -/

/-- C1 (blocking join).  In every reachable state, whatever the interleaving
and whenever `eventRouter.Run` returns: if `main` is at or past its final
`Exiting main()` log then the worker goroutine has finished (Run has returned
and `wg.Done()` has run); in the trace the return of Run precedes the final
log and the return of `main`, `wg.Done()` precedes the end of `wg.Wait()`,
`wg.Add(1)` precedes both the launch of the worker and the end of `wg.Wait()`,
and `wg.Done()` runs only after Run has returned. -/
theorem blocking_join (env : Env) (s : State) (h : Reachable env s) :
    ((s.mainPc = .logExiting ∨ s.mainPc = .ret ∨ s.mainPc = .exited) →
      s.wrkPc = .finished) ∧
    Precedes (.worker, .runReturn) (.main, .log .warning .exitingMain) s.trace ∧
    Precedes (.worker, .runReturn) (.main, .mainReturn) s.trace ∧
    Precedes (.worker, .wgDone) (.main, .wgWaitDone) s.trace ∧
    Precedes (.main, .wgAdd 1) (.main, .goWorker) s.trace ∧
    Precedes (.main, .wgAdd 1) (.main, .wgWaitDone) s.trace ∧
    Precedes (.worker, .runReturn) (.worker, .wgDone) s.trace := by
  refine ⟨?_, ?_, ?_, ?_, ?_, ?_, ?_⟩
  · have hi := inv_reachable env s h
    rintro (hp | hp | hp) <;> exact hi.joined (by simp [hp])
  · refine precedes_reachable env _ _ ?_ s h
    intro s hr hf
    have hi := inv_reachable env s hr
    simp only [Fires] at hf
    have hw := hi.joined (by simp [hf])
    rw [worker_mem_iff env s hi]
    simp [hw, wrkScript]
  · refine precedes_reachable env _ _ ?_ s h
    intro s hr hf
    have hi := inv_reachable env s hr
    simp only [Fires] at hf
    have hw := hi.joined (by simp [hf])
    rw [worker_mem_iff env s hi]
    simp [hw, wrkScript]
  · refine precedes_reachable env _ _ ?_ s h
    intro s hr hf
    have hi := inv_reachable env s hr
    simp only [Fires] at hf
    obtain ⟨hp, hwg⟩ := hf
    have h2 := hi.wrk_spawn
    have h4 := hi.wg_eq
    simp [hp] at h2 h4
    simp [h4] at hwg
    have hw : s.wrkPc = .finished := by
      by_contra hne
      simp [h2, hne] at hwg
    rw [worker_mem_iff env s hi]
    simp [hw, wrkScript]
  · refine precedes_reachable env _ _ ?_ s h
    intro s hr hf
    have hi := inv_reachable env s hr
    simp only [Fires] at hf
    have hc : s.crash = none := by
      have := hi.crash_pc
      simp [hf] at this
      exact this
    rw [main_mem_iff env s hi]
    simp [hf, hc, State.mainProgress, mainScriptOf]
  · refine precedes_reachable env _ _ ?_ s h
    intro s hr hf
    have hi := inv_reachable env s hr
    simp only [Fires] at hf
    have hc : s.crash = none := by
      have := hi.crash_pc
      simp [hf.1] at this
      exact this
    rw [main_mem_iff env s hi]
    simp [hf.1, hc, State.mainProgress, mainScriptOf]
  · refine precedes_reachable env _ _ ?_ s h
    intro s hr hf
    have hi := inv_reachable env s hr
    simp only [Fires] at hf
    rw [worker_mem_iff env s hi]
    simp [hf, wrkScript]

/-- Witness for C1: the complete run `schedGraceful`, in which Run returns
strictly after the stop channel was closed. -/
theorem blocking_join_witness :
    ∃ s, run envInCluster schedGraceful init = some s ∧ s.mainPc = .exited ∧
      s.wrkPc = .finished ∧
      precedesB (.listener, .closeChan 0) (.worker, .runReturn) s.trace = true ∧
      Precedes (.worker, .runReturn) (.main, .log .warning .exitingMain) s.trace :=
  ⟨_, rfl, rfl, rfl, rfl, (blocking_join envInCluster _ ⟨schedGraceful, rfl⟩).2.1⟩

/-- Only the listener goroutine closes a channel, and only the stop channel. -/
theorem close_by_listener (env : Env) (s : State) (h : Reachable env s) (t : Thread)
    (ch : ChanId) (hm : (t, Action.closeChan ch) ∈ s.trace) : t = .listener ∧ ch = 0 := by
  obtain ⟨s0, hr0, hf⟩ := trace_fires env s h _ hm
  have hi := inv_reachable env s0 hr0
  cases t <;> simp only [Fires] at hf
  have h1 := hi.lis_vars (by simp [hf.1])
  rw [hf.2.1] at h1
  exact ⟨rfl, by simpa using h1⟩

/-- C2 (single fire, irreversible).  In every reachable state, hence for every
sequence of signals delivered to the listener: `close` has been executed at
most once (by the listener, on the stop channel), the listener has never
panicked (no double close), a channel is closed exactly when its `close` is in
the trace, and once the listener has finished the stop channel has been closed
exactly once.  Once a qualifying signal has been delivered the listener is
never blocked until it has closed the channel.  A closed channel is closed in
every later state. -/
theorem single_fire (env : Env) (s : State) (h : Reachable env s) :
    (∀ t ch, s.trace.count (t, Action.closeChan ch) ≤ 1) ∧
    (∀ t ch, (t, Action.closeChan ch) ∈ s.trace → t = .listener ∧ s.shStop = some ch) ∧
    (∀ m, (Thread.listener, Action.panic m) ∉ s.trace) ∧
    (∀ ch, s.isClosed ch = true ↔ (Thread.listener, Action.closeChan ch) ∈ s.trace) ∧
    (s.lisPc = .done →
      s.closed = [0] ∧ s.trace.count (Thread.listener, Action.closeChan 0) = 1) ∧
    (qualifying s.trace ≠ [] → s.ended = false → s.lisPc ≠ .done →
      ∃ s1, step env .listener s = some s1) ∧
    (∀ es s1, run env es s = some s1 → ∀ ch, s.isClosed ch = true → s1.isClosed ch = true) := by
  have hi := inv_reachable env s h
  have hcount : ∀ ch, s.trace.count (Thread.listener, Action.closeChan ch) ≤ 1 := by
    intro ch
    rw [count_proj, hi.lis_trace]
    cases hpc : s.lisPc <;> simp [lisScript, List.count_cons] <;> split <;> omega
  have hmem : ∀ ch, (Thread.listener, Action.closeChan ch) ∈ s.trace ↔
      (s.lisPc = .done ∧ ch = 0) := by
    intro ch
    rw [listener_mem_iff env s hi]
    cases hpc : s.lisPc <;> simp [lisScript]
  refine ⟨?_, ?_, ?_, ?_, ?_, ?_, ?_⟩
  · intro t ch
    by_cases hm : (t, Action.closeChan ch) ∈ s.trace
    · obtain ⟨rfl, rfl⟩ := close_by_listener env s h t ch hm
      exact hcount 0
    · rw [List.count_eq_zero_of_not_mem hm]
      exact Nat.zero_le _
  · intro t ch hm
    obtain ⟨rfl, rfl⟩ := close_by_listener env s h t ch hm
    have := (hmem 0).mp hm
    exact ⟨rfl, hi.lis_vars (by simp [this.1])⟩
  · intro m hm
    obtain ⟨s0, hr0, hf⟩ := trace_fires env s h _ hm
    have hi0 := inv_reachable env s0 hr0
    simp only [Fires] at hf
    obtain ⟨hp, ch, -, hc⟩ := hf
    have := hi0.closed_eq
    simp [hp] at this
    simp [State.isClosed, this] at hc
  · intro ch
    rw [hmem ch]
    have := hi.closed_eq
    by_cases hd : s.lisPc = .done
    · simp [hd] at this
      simp [State.isClosed, this, hd]
    · simp [hd] at this
      simp [State.isClosed, this, hd]
  · intro hd
    have := hi.closed_eq
    simp [hd] at this
    refine ⟨this, ?_⟩
    rw [count_proj, hi.lis_trace]
    simp [hd, lisScript, List.count_cons]
  · intro hq he hnd
    have h1 := hi.no_early
    have h2 := hi.sig_before
    have h3 := hi.sig_after
    have h4 := hi.lis_vars
    have h5 := hi.closed_eq
    have hqd : delivered s.trace ≠ [] := by
      intro hd
      apply hq
      unfold qualifying
      unfold delivered at hd
      rw [List.filterMap_eq_nil_iff] at hd ⊢
      intro x hx
      have := hd x hx
      revert this
      cases x.2 <;> simp
    simp only [step, he]
    cases hpc : s.lisPc <;> simp [hpc] at h1 h2 h3 h4 h5 hnd
    · exact absurd h1 hqd
    · exact absurd h1 hqd
    · exact absurd h1 hqd
    · cases hb : (qualifying s.trace).head? with
      | none =>
        rw [List.head?_eq_none_iff] at hb
        exact absurd hb hq
      | some g =>
        simp [lisStep, hpc, h2, hb]
    · cases hg : s.sig with
      | none =>
        rw [hg] at h3
        have := h3.2.symm
        rw [List.head?_eq_none_iff] at this
        exact absurd this hq
      | some g => simp [lisStep, hpc, hg]
    · simp [lisStep, hpc, h4, State.isClosed, h5]
  · intro es s1 hrun ch hc
    simp only [State.isClosed, decide_eq_true_eq] at hc ⊢
    exact run_closed_mono env es s s1 hrun ch hc

/-- Witness for C2: two interrupts in rapid succession; the stop channel is
closed once, and it is still closed in every later state. -/
theorem single_fire_witness :
    ∃ s, run envInCluster schedTwoInterrupts init = some s ∧
      signalsOf schedTwoInterrupts = [.SIGINT, .SIGINT] ∧
      s.closed = [0] ∧ s.trace.count (Thread.listener, Action.closeChan 0) = 1 ∧
      (∀ es s1, run envInCluster es s = some s1 →
        ∀ ch, s.isClosed ch = true → s1.isClosed ch = true) :=
  ⟨_, rfl, rfl, rfl,
    ((single_fire envInCluster _ ⟨schedTwoInterrupts, rfl⟩).2.2.2.2.1 rfl).2,
    (single_fire envInCluster _ ⟨schedTwoInterrupts, rfl⟩).2.2.2.2.2.2⟩

/-- When client construction fails, `main` never gets past the second error
check. -/
theorem rank_lt_five (env : Env) (e : String) (herr : clientOf env = .error e) (s : State)
    (hi : Inv env s) : s.mainPc.rank < 5 := by
  by_contra hge
  have h5 := hi.cs_ok (by omega)
  obtain ⟨h6, h7⟩ := h5
  cases hc : s.clientset with
  | none => simp [hc] at h6
  | some cs =>
    rw [hc, okOr_some, herr] at h7
    cases h7

/-- When client construction fails with `e`, `main` alone runs into the panic
with message `e` within five statements. -/
theorem panics_on_error (env : Env) (e : String) (herr : clientOf env = .error e) :
    ∃ n s1, n ≤ 5 ∧ run env (List.replicate n .main) init = some s1 ∧
      s1.crash = some e ∧ s1.trace.getLast? = some (.main, .panic e) := by
  unfold clientOf at herr
  cases hres : resolve env with
  | error e1 =>
    simp only [hres] at herr
    cases herr
    refine ⟨3, ?_⟩
    by_cases hk : (kubeconfigOf env).length > 0
    · simp only [resolve, hk, if_true] at hres
      simp only [kubeconfigOf] at hk hres
      simp [List.replicate, run, step, State.ended, init, mainStep, hk, hres]
    · simp only [resolve, hk, if_false] at hres
      simp only [kubeconfigOf] at hk hres
      simp [List.replicate, run, step, State.ended, init, mainStep, hk, hres]
  | ok cfg =>
    simp only [hres] at herr
    refine ⟨5, ?_⟩
    by_cases hk : (kubeconfigOf env).length > 0
    · simp only [resolve, hk, if_true] at hres
      simp only [kubeconfigOf] at hk hres
      simp [List.replicate, run, step, State.ended, init, mainStep, hk, hres, herr]
    · simp only [resolve, hk, if_false] at hres
      simp only [kubeconfigOf] at hk hres
      simp [List.replicate, run, step, State.ended, init, mainStep, hk, hres, herr]

/-- C3 (fatal startup isolation).  If building the client configuration or
`kubernetes.NewForConfig` returns an error `e`, then `main` panics with the
message `e` after at most five of its statements, and in every reachable state
only `main` has acted: `sigHandler` has not been called, no goroutine has been
launched, `eventRouter.Run` and `sharedInformers.Start` have not been called,
and the only panic there can be is the one with message `e`. -/
theorem fatal_startup_isolation (env : Env) (e : String)
    (herr : clientOf env = .error e) (s : State) (h : Reachable env s) :
    (∀ x ∈ s.trace, x.1 = Thread.main) ∧
    (Thread.main, Action.sigHandlerCall) ∉ s.trace ∧
    (Thread.main, Action.goListener) ∉ s.trace ∧
    (Thread.main, Action.goWorker) ∉ s.trace ∧
    (∀ ch, (Thread.main, Action.informersStart ch) ∉ s.trace) ∧
    (∀ ch, (Thread.worker, Action.runCall ch) ∉ s.trace) ∧
    s.lisPc = .notSpawned ∧ s.wrkPc = .notSpawned ∧ s.pipePc = .notStarted ∧
    (s.crash = none ∨ s.crash = some e) ∧
    (∃ n s1, n ≤ 5 ∧ run env (List.replicate n .main) init = some s1 ∧
      s1.crash = some e ∧ s1.trace.getLast? = some (.main, .panic e)) := by
  have hi := inv_reachable env s h
  have hlt := rank_lt_five env e herr s hi
  have hmain : ∀ x ∈ s.trace, x.1 = Thread.main := by
    intro x hx
    obtain ⟨s0, hr0, hf⟩ := trace_fires env s h x hx
    have hi0 := inv_reachable env s0 hr0
    have hlt0 := rank_lt_five env e herr s0 hi0
    have hl := hi0.lis_spawn.mpr (by omega)
    have hw := hi0.wrk_spawn.mpr (by omega)
    have hp := hi0.pipe_start.mpr (by omega)
    have hn := hi0.notify_eq
    simp [hl] at hn
    obtain ⟨t, a⟩ := x
    cases t <;> try rfl
    all_goals (cases a <;> simp [Fires, hl, hw, hp, hn] at hf)
    all_goals (rename_i sev msg; cases sev <;> cases msg <;> simp [Fires, hl] at hf)
  have hno : ∀ a, (∀ s0, Inv env s0 → Fires env s0 (Thread.main, a) → 5 ≤ s0.mainPc.rank) →
      (Thread.main, a) ∉ s.trace := by
    intro a ha hm
    obtain ⟨s0, hr0, hf⟩ := trace_fires env s h _ hm
    have hi0 := inv_reachable env s0 hr0
    have := ha s0 hi0 hf
    have := rank_lt_five env e herr s0 hi0
    omega
  refine ⟨hmain, ?_, ?_, ?_, ?_, ?_, ?_, ?_, ?_, ?_, ?_⟩
  · exact hno _ (fun s0 _ hf => by simp only [Fires] at hf; simp [hf])
  · exact hno _ (fun s0 _ hf => by simp only [Fires] at hf; simp [hf])
  · exact hno _ (fun s0 _ hf => by simp only [Fires] at hf; simp [hf])
  · intro ch
    exact hno _ (fun s0 _ hf => by simp only [Fires] at hf; simp [hf.1])
  · intro ch hm
    have := hmain _ hm
    cases this
  · exact hi.lis_spawn.mpr (by omega)
  · exact hi.wrk_spawn.mpr (by omega)
  · exact hi.pipe_start.mpr (by omega)
  · cases hc : s.crash with
    | none => exact Or.inl rfl
    | some m =>
      right
      have h1 := hi.crash_err m hc
      have h2 := hi.crash_pc (by simp [hc])
      rcases h2 with h2 | h2
      · have h3 := (hi.cfg_at h2).1
        rw [h1, fromPair_some] at h3
        simp only [clientOf, h3] at herr
        cases herr
        rfl
      · have h3 := (hi.cs_at h2).1
        rw [h1, fromPair_some, herr] at h3
        cases h3
        rfl
  · exact panics_on_error env e herr

/-- Witness for C3 (scenario B): with `kubeconfig="/bad/path"` the third
statement of `main` panics with the resolver's error, and in a run where the
scheduler tries every goroutine nothing but `main` has acted. -/
theorem fatal_startup_isolation_witness :
    clientOf envBadPath = .error "stat /bad/path: no such file or directory" ∧
    ∃ s, run envBadPath [.main, .main, .main] init = some s ∧
      s.crash = some "stat /bad/path: no such file or directory" ∧
      step envBadPath .listener s = none ∧ step envBadPath .worker s = none ∧
      step envBadPath .pipeline s = none ∧ step envBadPath .main s = none ∧
      (∀ x ∈ s.trace, x.1 = Thread.main) ∧
      (Thread.main, Action.sigHandlerCall) ∉ s.trace :=
  ⟨rfl, _, rfl, rfl, rfl, rfl, rfl, rfl,
    (fatal_startup_isolation envBadPath _ rfl _ ⟨[.main, .main, .main], rfl⟩).1,
    (fatal_startup_isolation envBadPath _ rfl _ ⟨[.main, .main, .main], rfl⟩).2.1⟩

theorem length_pos_iff (k : String) : 0 < k.length ↔ k ≠ "" := by
  constructor
  · intro h he
    subst he
    simp at h
  · intro h
    by_contra hz
    apply h
    have h0 : k.length = 0 := by omega
    have : k.data = [] := List.length_eq_zero.mp h0
    exact String.ext this

/-- How often an action of `main` occurs in the trace. -/
theorem main_count (env : Env) (s : State) (hi : Inv env s) (a : Action) :
    s.trace.count (Thread.main, a) = ((mainScriptOf s).take s.mainProgress).count a := by
  rw [count_proj, hi.main_trace]

theorem main_count_le (env : Env) (s : State) (hi : Inv env s) (a : Action) :
    s.trace.count (Thread.main, a) ≤ (mainScriptOf s).count a := by
  rw [main_count env s hi]
  exact (List.take_sublist _ _).count_le _

/-- The `i`-th action of `main` is in the trace once `main` is past it. -/
theorem main_mem_of_index (env : Env) (s : State) (hi : Inv env s) (a : Action) (i : Nat)
    (ha : (mainScriptOf s)[i]? = some a) (hlt : i < s.mainPc.rank) :
    (Thread.main, a) ∈ s.trace := by
  rw [main_mem_iff env s hi]
  have hp : i < s.mainProgress := by
    unfold State.mainProgress
    omega
  exact List.getElem?_mem ((List.getElem?_take_of_lt hp).trans ha)

theorem count_eq_one_of_mem_of_le {α : Type} [BEq α] [LawfulBEq α] (l : List α) (a : α)
    (hm : a ∈ l) (hle : l.count a ≤ 1) : l.count a = 1 := by
  have := List.count_pos_iff_mem.mpr hm
  omega

/-- C4 (credential source selection).  `clientcmd.BuildConfigFromFlags` is only
ever called by `main`, with an empty master URL and the value of the
`kubeconfig` flag, and only when that value is non-empty;
`rest.InClusterConfig` is only ever called when the value is empty.  Neither is
called twice; once `main` is past the resolution, the one selected by the flag
has been called exactly once (so exactly one of the two is invoked), and its
result is what `config, err` hold at the error check. -/
theorem credential_source_selection (env : Env) (s : State) (h : Reachable env s) :
    (∀ t m p, (t, Action.buildConfigFromFlags m p) ∈ s.trace →
      t = .main ∧ m = "" ∧ p = kubeconfigOf env ∧ kubeconfigOf env ≠ "") ∧
    (∀ t, (t, Action.inClusterConfig) ∈ s.trace → t = .main ∧ kubeconfigOf env = "") ∧
    (∀ m p, s.trace.count (Thread.main, Action.buildConfigFromFlags m p) ≤ 1) ∧
    s.trace.count (Thread.main, Action.inClusterConfig) ≤ 1 ∧
    (2 ≤ s.mainPc.rank → kubeconfigOf env ≠ "" →
      s.trace.count (Thread.main, Action.buildConfigFromFlags "" (kubeconfigOf env)) = 1) ∧
    (2 ≤ s.mainPc.rank → kubeconfigOf env = "" →
      s.trace.count (Thread.main, Action.inClusterConfig) = 1) ∧
    (s.mainPc = .checkConfigErr →
      fromPair s.err s.config =
        if kubeconfigOf env ≠ "" then env.buildConfigFromFlags "" (kubeconfigOf env)
        else env.inClusterConfig) := by
  have hi := inv_reachable env s h
  refine ⟨?_, ?_, ?_, ?_, ?_, ?_, ?_⟩
  · intro t m p hm
    obtain ⟨s0, hr0, hf⟩ := trace_fires env s h _ hm
    have hi0 := inv_reachable env s0 hr0
    cases t <;> simp only [Fires] at hf
    obtain ⟨hp, rfl, rfl, hl⟩ := hf
    have hk := (hi0.flags (by simp [hp])).1
    rw [hk] at hl ⊢
    exact ⟨rfl, rfl, rfl, (length_pos_iff _).mp hl⟩
  · intro t hm
    obtain ⟨s0, hr0, hf⟩ := trace_fires env s h _ hm
    have hi0 := inv_reachable env s0 hr0
    cases t <;> simp only [Fires] at hf
    obtain ⟨hp, hl⟩ := hf
    have hk := (hi0.flags (by simp [hp])).1
    rw [hk] at hl
    refine ⟨rfl, ?_⟩
    by_contra hne
    exact hl ((length_pos_iff _).mpr hne)
  · intro m p
    refine le_trans (main_count_le env s hi _) ?_
    simp [mainScriptOf, List.count_cons]
    split_ifs <;> first | contradiction | simp
  · refine le_trans (main_count_le env s hi _) ?_
    simp [mainScriptOf, List.count_cons]
    split_ifs <;> first | contradiction | simp
  · intro h2 hne
    have hk := (hi.flags (by omega)).1
    have hl := (length_pos_iff _).mpr hne
    apply count_eq_one_of_mem_of_le
    · apply main_mem_of_index env s hi _ 1 _ (by omega)
      simp [mainScriptOf, hk, hl]
    · refine le_trans (main_count_le env s hi _) ?_
      simp [mainScriptOf, List.count_cons]
      split_ifs <;> first | contradiction | simp
  · intro h2 he
    have hk := (hi.flags (by omega)).1
    apply count_eq_one_of_mem_of_le
    · apply main_mem_of_index env s hi _ 1 _ (by omega)
      simp [mainScriptOf, hk, he]
    · refine le_trans (main_count_le env s hi _) ?_
      simp [mainScriptOf, List.count_cons]
      split_ifs <;> first | contradiction | simp
  · intro hp
    have h1 := (hi.cfg_at hp).1
    rw [← h1]
    unfold resolve
    by_cases hne : kubeconfigOf env ≠ ""
    · simp [hne, (length_pos_iff _).mpr hne]
    · have he : kubeconfigOf env = "" := by simpa using hne
      simp [he]

/-- Witness for C4: with a kubeconfig path the file resolver is called once
with that path and the in-cluster resolver is not called. -/
theorem credential_source_selection_witness :
    ∃ s, run envKubeconfig [.main, .main] init = some s ∧
      s.trace = [(.main, .flagParse "/var/run/kubernetes/admin.kubeconfig" 60000000000),
        (.main, .buildConfigFromFlags "" "/var/run/kubernetes/admin.kubeconfig")] ∧
      s.trace.count (Thread.main,
        Action.buildConfigFromFlags "" (kubeconfigOf envKubeconfig)) = 1 :=
  ⟨_, rfl, rfl,
    (credential_source_selection envKubeconfig _ ⟨[.main, .main], rfl⟩).2.2.2.2.1
      (by decide) (by decide)⟩

theorem mem_qualifying (g : Signal) (tr : List (Thread × Action)) :
    g ∈ qualifying tr ↔ g ∈ notifySet ∧ ∃ t, (t, Action.deliver g) ∈ tr := by
  unfold qualifying
  rw [List.mem_filterMap]
  constructor
  · rintro ⟨⟨t, a⟩, hx, ha⟩
    cases a <;> simp at ha
    obtain ⟨h1, rfl⟩ := ha
    exact ⟨h1, t, hx⟩
  · rintro ⟨h1, t, hx⟩
    exact ⟨(t, Action.deliver g), hx, by simp [h1]⟩

/-- Signals are relayed by the runtime only. -/
theorem deliver_by_os (env : Env) (s : State) (h : Reachable env s) (t : Thread) (g : Signal)
    (hm : (t, Action.deliver g) ∈ s.trace) : t = .os := by
  obtain ⟨s0, -, hf⟩ := trace_fires env s h _ hm
  cases t <;> simp only [Fires] at hf
  rfl

/-- Once the listener has received a signal, the relay of a signal of the
`signal.Notify` set is in the trace. -/
theorem delivered_of_received (env : Env) (s : State) (h : Reachable env s)
    (hl : 3 ≤ s.lisPc.rank) : ∃ g ∈ notifySet, (Thread.os, Action.deliver g) ∈ s.trace := by
  have hi := inv_reachable env s h
  have h1 := (hi.sig_after hl).1
  cases hq : qualifying s.trace with
  | nil => simp [hq] at h1
  | cons g rest =>
    have hg : g ∈ qualifying s.trace := by simp [hq]
    obtain ⟨h2, t, h3⟩ := (mem_qualifying g s.trace).mp hg
    have := deliver_by_os env s h t g h3
    subst this
    exact ⟨g, h2, h3⟩

/-- Every relayed signal belongs to the `signal.Notify` set and was sent to the
process. -/
theorem relayed_raised (env : Env) (s : State) (h : Reachable env s) (g : Signal)
    (hm : (Thread.os, Action.deliver g) ∈ s.trace) : g ∈ notifySet ∧ g ∈ s.raised := by
  obtain ⟨s0, hr0, hf⟩ := trace_fires env s h _ hm
  simp only [Fires] at hf
  have hg := (siginv_reachable env s0 hr0).pending_sub g (lowest_mem _ _ hf.2)
  exact ⟨hg, (siginv_reachable env s h).qual_raised g
    ((mem_qualifying g s.trace).mpr ⟨hg, _, hm⟩)⟩

/-- C5, as amended (no premature fire).  The stop channel is open when
`sigHandler` has created it and is about to launch the listener goroutine; in
every reachable state in which no signal of the `signal.Notify` set has been
delivered no channel is closed (so the channel is open when `sigHandler`
returns it, unless such a signal has arrived in between); every `close` in the
trace comes after the delivery of a signal of that set.  A signal is delivered
to the listener's channel only after it was sent to the process, so the same
holds of the signals sent to the process. -/
theorem no_premature_fire (env : Env) (s : State) (h : Reachable env s) :
    (s.mainPc = .shGoListener → s.closed = [] ∧ s.stopFired s.shStop = false) ∧
    ((∀ g ∈ notifySet, (Thread.os, Action.deliver g) ∉ s.trace) →
      s.closed = [] ∧ s.stopFired s.stop = false ∧ s.stopFired s.shStop = false) ∧
    (∀ ch, s.isClosed ch = true →
      ∃ g ∈ notifySet, (Thread.os, Action.deliver g) ∈ s.trace) ∧
    (∀ t ch, PrecededBy (fun x => ∃ g ∈ notifySet, x = (Thread.os, Action.deliver g))
      (t, Action.closeChan ch) s.trace) ∧
    (∀ g, (Thread.os, Action.deliver g) ∈ s.trace → g ∈ notifySet ∧ g ∈ s.raised) ∧
    ((∀ g ∈ notifySet, g ∉ s.raised) →
      s.closed = [] ∧ s.stopFired s.stop = false ∧ s.stopFired s.shStop = false) ∧
    (∀ ch, s.isClosed ch = true → ∃ g ∈ notifySet, g ∈ s.raised) := by
  have hi := inv_reachable env s h
  have hopen : ∀ o : Option ChanId, s.closed = [] → s.stopFired o = false := by
    intro o hc
    cases o <;> simp [State.stopFired, State.isClosed, hc]
  have hclosed : s.closed ≠ [] → 3 ≤ s.lisPc.rank := by
    intro hne
    have := hi.closed_eq
    by_cases hd : s.lisPc = .done
    · simp [hd]
    · simp [hd] at this
      exact absurd this hne
  have hsent : s.closed ≠ [] → ∃ g ∈ notifySet, g ∈ s.raised := by
    intro hne
    obtain ⟨g, hg, hm⟩ := delivered_of_received env s h (hclosed hne)
    exact ⟨g, hg, (relayed_raised env s h g hm).2⟩
  refine ⟨?_, ?_, ?_, ?_, relayed_raised env s h, ?_, ?_⟩
  · intro hp
    have hl := hi.lis_spawn.mpr (by simp [hp])
    have := hi.closed_eq
    simp [hl] at this
    exact ⟨this, hopen _ this⟩
  · intro hno
    have hc : s.closed = [] := by
      by_contra hne
      obtain ⟨g, hg, hm⟩ := delivered_of_received env s h (hclosed hne)
      exact hno g hg hm
    exact ⟨hc, hopen _ hc, hopen _ hc⟩
  · intro ch hc
    apply delivered_of_received env s h
    apply hclosed
    intro he
    simp [State.isClosed, he] at hc
  · intro t ch
    refine precededBy_reachable env _ _ ?_ s h
    intro s0 hr0 hf
    cases t <;> simp only [Fires] at hf
    obtain ⟨g, hg, hm⟩ := delivered_of_received env s0 hr0 (by simp [hf.1])
    exact ⟨_, hm, g, hg, rfl⟩
  · intro hno
    have hc : s.closed = [] := by
      by_contra hne
      obtain ⟨g, hg, hm⟩ := hsent hne
      exact hno g hg hm
    exact ⟨hc, hopen _ hc, hopen _ hc⟩
  · intro ch hc
    apply hsent
    intro he
    simp [State.isClosed, he] at hc

/-- Witness for C5 (amended): after start-up and two signals outside the
`signal.Notify` set, the stop channel held by `main` is open. -/
theorem no_premature_fire_witness :
    ∃ s, run envInCluster schedOtherSignals init = some s ∧
      s.raised = [.SIGUSR1, .SIGUSR2] ∧ s.stop = some 0 ∧
      s.stopFired s.stop = false :=
  ⟨_, rfl, rfl, rfl,
    ((no_premature_fire envInCluster _ ⟨schedOtherSignals, rfl⟩).2.1 (by decide)).2.1⟩

/-- Counterexample to C5 as stated: an interrupt arrives after `sigHandler`
has launched the listener and before it returns; the channel that
`sigHandler` then returns to `main` is already closed. -/
theorem stop_closed_when_returned :
    ∃ s, run envInCluster schedEarlySignal init = some s ∧
      s.trace.getLast? = some (Thread.main, Action.sigHandlerReturn 0) ∧
      s.mainPc = .wgAdd ∧ s.stop = some 0 ∧ s.stopFired s.stop = true :=
  ⟨_, rfl, rfl, rfl, rfl, rfl⟩

/-- Once a signal of the `signal.Notify` set has been delivered, the listener
goroutine runs to its end in at most three statements, without blocking. -/
theorem listener_completes (env : Env) (s : State) (hi : Inv env s)
    (hq : qualifying s.trace ≠ []) (he : s.ended = false) :
    ∃ n s1, n ≤ 3 ∧ run env (List.replicate n .listener) s = some s1 ∧ s1.lisPc = .done := by
  have h1 := hi.no_early
  have h2 := hi.sig_before
  have h3 := hi.sig_after
  have h4 := hi.lis_vars
  have h5 := hi.closed_eq
  have hqd : delivered s.trace ≠ [] := by
    intro hd
    apply hq
    unfold qualifying
    unfold delivered at hd
    rw [List.filterMap_eq_nil_iff] at hd ⊢
    intro x hx
    have := hd x hx
    revert this
    cases x.2 <;> simp
  have he2 := he
  simp only [State.ended, Bool.or_eq_false_iff, decide_eq_false_iff_not] at he2
  obtain ⟨hcr, hex⟩ := he2
  cases hpc : s.lisPc <;> simp [hpc] at h1 h2 h3 h4 h5
  · exact absurd h1 hqd
  · exact absurd h1 hqd
  · exact absurd h1 hqd
  · cases hb : (qualifying s.trace).head? with
    | none =>
      rw [List.head?_eq_none_iff] at hb
      exact absurd hb hq
    | some g =>
      refine ⟨3, ?_⟩
      simp [List.replicate, run, step, State.ended, lisStep, State.isClosed, hpc, h2, hb, h4,
        h5, hcr, hex]
  · cases hg : s.sig with
    | none =>
      rw [hg] at h3
      have := h3.2.symm
      rw [List.head?_eq_none_iff] at this
      exact absurd this hq
    | some g =>
      refine ⟨2, ?_⟩
      simp [List.replicate, run, step, State.ended, lisStep, State.isClosed, hpc, hg, h4,
        h5, hcr, hex]
  · refine ⟨1, ?_⟩
    simp [List.replicate, run, step, State.ended, lisStep, State.isClosed, hpc, h4, h5, hcr, hex]
  · exact ⟨0, s, by omega, rfl, hpc⟩

/-- C6, as amended (one shutdown diagnostic).  In every reachable state, hence
for every sequence of signals sent to the process: the listener goroutine has
emitted no log record before its `glog.Warningf` statement and exactly one
after it, of warning severity, naming the first signal the runtime relayed to
channel `c`, which is a signal of the `signal.Notify` set that was sent to the
process (the only one, when all such signals sent are the same); no other
goroutine emits that record; the record precedes every `close`; the listener
receives at most once, and what it receives is that first relayed signal.  A
caught signal can be relayed, and once one has been relayed the listener runs
to its end without blocking.  A signal sent to the process changes nothing but
the caught signals, and is caught only after `signal.Notify` has run; a relay
takes the caught signal with the lowest number, changes nothing but the caught
signals, the buffer of channel `c` and the trace, leaves the buffer alone when
it is full, and adds no log record.  Before `signal.Notify` has run a signal of
the set ends the process. -/
theorem one_shutdown_diagnostic (env : Env) (s : State) (h : Reachable env s) :
    (s.lisPc.rank ≤ 3 → logsOf .listener s.trace = []) ∧
    (4 ≤ s.lisPc.rank → ∃ g, (qualifying s.trace).head? = some g ∧ g ∈ notifySet ∧
      g ∈ s.raised ∧ logsOf .listener s.trace = [(.warning, .signalDetected g)]) ∧
    (∀ g0, (∀ g ∈ s.raised, g ∈ notifySet → g = g0) → 4 ≤ s.lisPc.rank →
      logsOf .listener s.trace = [(.warning, .signalDetected g0)]) ∧
    (∀ t sev g, (t, Action.log sev (.signalDetected g)) ∈ s.trace → t = .listener) ∧
    (∀ ch, PrecededBy
      (fun x => ∃ g, x = (Thread.listener, Action.log .warning (.signalDetected g)))
      (Thread.listener, Action.closeChan ch) s.trace) ∧
    (∀ g, s.trace.count (Thread.listener, Action.recvSignal g) ≤ 1) ∧
    (∀ g, (Thread.listener, Action.recvSignal g) ∈ s.trace →
      (qualifying s.trace).head? = some g) ∧
    (s.pending ≠ [] → s.ended = false →
      ∃ s1, step env .relay s = some s1 ∧ qualifying s1.trace ≠ []) ∧
    (qualifying s.trace ≠ [] → s.ended = false →
      ∃ n s1, n ≤ 3 ∧ run env (List.replicate n .listener) s = some s1 ∧ s1.lisPc = .done) ∧
    (∀ g s1, step env (.signal g) s = some s1 →
      s1 = { s with pending := s1.pending, raised := s.raised ++ [g] } ∧
      (g ∈ s1.pending ↔ g ∈ s.pending ∨ (g ∈ notifySet ∧ 2 ≤ s.lisPc.rank))) ∧
    (∀ s1, step env .relay s = some s1 → ∃ g, lowest s.pending = some g ∧
      s1 = { s with pending := s.pending.erase g, cBuf := s1.cBuf,
                    trace := s.trace ++ [(.os, .deliver g)] } ∧
      (s.cBuf.isSome → s1.cBuf = s.cBuf) ∧ ∀ t, logsOf t s1.trace = logsOf t s.trace) ∧
    (∀ g ∈ notifySet, s.lisPc.rank ≤ 1 →
      s.killedBy g = true ∧ step env (.signal g) s = none) := by
  have hi := inv_reachable env s h
  have hsi := siginv_reachable env s h
  have h3 := hi.sig_after
  have ht := hi.lis_trace
  have hnot := hi.notify_eq
  have hone : 4 ≤ s.lisPc.rank → ∃ g, (qualifying s.trace).head? = some g ∧ g ∈ notifySet ∧
      g ∈ s.raised ∧ logsOf .listener s.trace = [(.warning, .signalDetected g)] := by
    intro hr
    obtain ⟨h31, h32⟩ := h3 (by omega)
    cases hq : (qualifying s.trace).head? with
    | none => simp [hq] at h31
    | some g =>
      have hmem : g ∈ qualifying s.trace := List.mem_of_mem_head? hq
      refine ⟨g, rfl, ((mem_qualifying g s.trace).mp hmem).1, hsi.qual_raised g hmem, ?_⟩
      rw [hq] at h32
      unfold logsOf
      rw [ht, h32]
      cases hpc : s.lisPc <;> simp [hpc] at hr <;> simp [lisScript]
  refine ⟨?_, hone, ?_, ?_, ?_, ?_, ?_, ?_, ?_, ?_, ?_, ?_⟩
  · intro hr
    unfold logsOf
    rw [ht]
    cases hpc : s.lisPc <;> simp [hpc] at hr <;> simp [lisScript]
  · intro g0 hall hr
    obtain ⟨g, -, hg1, hg2, hlog⟩ := hone hr
    rw [← hall g hg2 hg1]
    exact hlog
  · intro t sev g hm
    obtain ⟨s0, -, hf⟩ := trace_fires env s h _ hm
    cases t <;> cases sev <;> first | rfl | (simp [Fires] at hf)
  · intro ch
    refine precededBy_reachable env _ _ ?_ s h
    intro s0 hr0 hf
    have hi0 := inv_reachable env s0 hr0
    simp only [Fires] at hf
    obtain ⟨h31, h32⟩ := hi0.sig_after (by simp [hf.1])
    cases hq : (qualifying s0.trace).head? with
    | none => simp [hq] at h31
    | some g =>
      rw [hq] at h32
      refine ⟨_, ?_, g, rfl⟩
      rw [listener_mem_iff env s0 hi0]
      simp [hf.1, h32, lisScript]
  · intro g
    rw [count_proj, ht]
    cases hpc : s.lisPc <;> simp [lisScript, List.count_cons] <;> split <;> omega
  · intro g hm
    rw [listener_mem_iff env s hi] at hm
    have hr : 3 ≤ s.lisPc.rank := by
      cases hpc : s.lisPc <;> simp [hpc, lisScript] at hm ⊢
    obtain ⟨h31, h32⟩ := h3 hr
    cases hq : (qualifying s.trace).head? with
    | none => simp [hq] at h31
    | some g1 =>
      rw [hq] at h32
      rw [h32] at hm
      cases hpc : s.lisPc <;> simp [hpc, lisScript] at hm hr <;> simp [hm]
  · intro hp he
    obtain ⟨g, hg⟩ := lowest_ne_nil s.pending hp
    have hgn := hsi.pending_sub g (lowest_mem _ _ hg)
    have hreg : s.notify ≠ none := fun hn => hp (hsi.pending_reg hn)
    cases hn : s.notify with
    | none => exact absurd hn hreg
    | some reg =>
      refine ⟨_, by simp only [step, he, relayStep, hn, hg]; rfl, ?_⟩
      simp [qualifying_snoc, hgn]
  · exact listener_completes env s hi
  · intro g s1 hs
    unfold step at hs
    split at hs
    · cases hs
    · simp only [sigStep] at hs
      have hcatch : s.catches g = true ↔ (g ∈ notifySet ∧ 2 ≤ s.lisPc.rank) := by
        unfold State.catches
        by_cases hl : 2 ≤ s.lisPc.rank
        · simp [hl] at hnot
          simp [hnot, hl]
        · simp [hl] at hnot
          simp [hnot, hl]
      split at hs
      · rename_i hc
        cases hs
        refine ⟨rfl, ?_⟩
        dsimp only
        have := hcatch.mp hc
        split
        · rename_i hin
          simp [hin]
        · simp [this]
      · rename_i hc
        split at hs
        · cases hs
        · cases hs
          refine ⟨rfl, ?_⟩
          dsimp only
          constructor
          · exact Or.inl
          · rintro (hin | hin)
            · exact hin
            · exact absurd (hcatch.mpr hin) hc
  · intro s1 hs
    unfold step at hs
    split at hs
    · cases hs
    · simp only [relayStep] at hs
      split at hs
      · cases hs
      · split at hs
        · cases hs
        · rename_i g hlow
          cases hs
          refine ⟨g, hlow, rfl, ?_, ?_⟩
          · intro hb
            dsimp only
            cases hcb : s.cBuf with
            | none => simp [hcb] at hb
            | some x => simp
          · intro t
            simp [logsOf, proj, List.filter_append, List.filter_cons]
  · intro g hg hl
    have hc : s.catches g = false := by
      unfold State.catches
      have hl2 : ¬ 2 ≤ s.lisPc.rank := by omega
      simp [hl2] at hnot
      simp [hnot]
    have hfat : g.fatal = true := by
      simp [notifySet] at hg
      rcases hg with rfl | rfl | rfl | rfl | rfl | rfl <;> rfl
    refine ⟨by simp [State.killedBy, hc, hfat], ?_⟩
    unfold step
    split
    · rfl
    · simp [sigStep, hc, hfat]

/-- Witness for C6 (amended): two interrupts in rapid succession; the listener
emits the one warning record `Signal (interrupt) Detected, Shutting Down`,
before it closes the stop channel. -/
theorem one_shutdown_diagnostic_witness :
    ∃ s, run envInCluster schedTwoInterrupts init = some s ∧
      signalsOf schedTwoInterrupts = [.SIGINT, .SIGINT] ∧
      s.raised = [.SIGINT, .SIGINT] ∧
      (logsOf .listener s.trace).map (fun r => (r.1, r.2.render)) =
        [(.warning, "Signal (interrupt) Detected, Shutting Down")] ∧
      precedesB (.listener, .log .warning (.signalDetected .SIGINT))
        (.listener, .closeChan 0) s.trace = true ∧
      logsOf .listener s.trace = [(.warning, .signalDetected .SIGINT)] :=
  ⟨_, rfl, rfl, rfl, rfl, rfl,
    (one_shutdown_diagnostic envInCluster _ ⟨schedTwoInterrupts, rfl⟩).2.2.1 .SIGINT
      (by decide) (by decide)⟩

/-- Counterexample to C6 as stated.  A termination request and then an
interrupt are sent to the process and are pending together when the runtime
relays: the interrupt has the lower number and is relayed first, so the one
record names the interrupt, not the first signal of the sequence.  And an
interrupt sent before `signal.Notify` has run ends the process, with no record
emitted. -/
theorem diagnostic_names_lower_signal :
    (∃ s, run envInCluster schedTermThenInt init = some s ∧
      signalsOf schedTermThenInt = [.SIGTERM, .SIGINT] ∧
      s.raised = [.SIGTERM, .SIGINT] ∧ s.lisPc = .done ∧ s.closed = [0] ∧
      logsOf .listener s.trace = [(.warning, .signalDetected .SIGINT)] ∧
      (logsOf .listener s.trace).map (fun r => r.2.render) =
        ["Signal (interrupt) Detected, Shutting Down"]) ∧
    (∃ s, run envInCluster schedBeforeNotify init = some s ∧ s.lisPc = .notify ∧
      s.killedBy .SIGINT = true ∧ step envInCluster (.signal .SIGINT) s = none ∧
      logsOf .listener s.trace = []) :=
  ⟨⟨_, rfl, rfl, rfl, rfl, rfl, rfl, rfl⟩, ⟨_, rfl, rfl, rfl, rfl, rfl⟩⟩

/-- An action of `main` that is in the trace and is not among the first `k`
statements of `main` shows that `main` is past statement `k`. -/
theorem main_mem_rank (env : Env) (s : State) (hi : Inv env s) (a : Action) (k : Nat)
    (h5 : 5 ≤ k) (hk : a ∉ (mainScriptOf s).take k) (hm : (Thread.main, a) ∈ s.trace) :
    k < s.mainPc.rank := by
  rw [main_mem_iff env s hi] at hm
  have hp : k < s.mainProgress := by
    by_contra hle
    apply hk
    have hmin : min s.mainProgress k = s.mainProgress := by omega
    rw [← hmin, ← List.take_take] at hm
    exact List.mem_of_mem_take hm
  unfold State.mainProgress at hp
  by_cases hc : s.crash.isSome
  · have := hi.crash_pc hc
    rcases this with hpc | hpc <;> simp [hpc, hc] at hp <;> omega
  · simp [hc] at hp
    exact hp

/-- The process has not panicked once `main` is past the second error check. -/
theorem crash_none_of_rank (env : Env) (s : State) (hi : Inv env s) (h : 5 ≤ s.mainPc.rank) :
    s.crash = none := by
  cases hc : s.crash with
  | none => rfl
  | some m =>
    have := hi.crash_pc (by simp [hc])
    rcases this with hpc | hpc <;> simp [hpc] at h

/-- C7 (shared handle and ordering).  In every reachable state: `sigHandler` is
called by `main` only and at most once, and exactly once when `main` is past
line 90; every channel `sigHandler` has returned, every channel
`eventRouter.Run` has been called with and every channel
`sharedInformers.Start` has been called with is the one value main's `stop`
holds, so Run and Start got the identical channel; the call to `sigHandler`
precedes the launch of the worker goroutine and the call of Start, and the
return of `sigHandler` with that channel precedes the calls of Run and of
Start. -/
theorem shared_handle_ordering (env : Env) (s : State) (h : Reachable env s) :
    (∀ t, (t, Action.sigHandlerCall) ∈ s.trace → t = .main) ∧
    s.trace.count (Thread.main, Action.sigHandlerCall) ≤ 1 ∧
    (9 ≤ s.mainPc.rank → s.trace.count (Thread.main, Action.sigHandlerCall) = 1) ∧
    (∀ t ch, (t, Action.sigHandlerReturn ch) ∈ s.trace →
      t = .main ∧ s.stop = some ch ∧ s.shStop = some ch) ∧
    (∀ t ch, (t, Action.runCall ch) ∈ s.trace →
      t = .worker ∧ s.stop = some ch ∧ s.runStop = some ch) ∧
    (∀ t ch, (t, Action.informersStart ch) ∈ s.trace →
      t = .main ∧ s.stop = some ch ∧ s.startStop = some ch) ∧
    (∀ a b, s.runStop = some a → s.startStop = some b →
      a = b ∧ s.stop = some a ∧ s.shStop = some a) ∧
    Precedes (.main, .sigHandlerCall) (.main, .goWorker) s.trace ∧
    (∀ ch, Precedes (.main, .sigHandlerCall) (.main, .informersStart ch) s.trace) ∧
    (∀ ch, Precedes (.main, .sigHandlerCall) (.worker, .runCall ch) s.trace) ∧
    (∀ ch, Precedes (.main, .sigHandlerReturn ch) (.worker, .runCall ch) s.trace) ∧
    (∀ ch, Precedes (.main, .sigHandlerReturn ch) (.main, .informersStart ch) s.trace) := by
  have hi := inv_reachable env s h
  refine ⟨?_, ?_, ?_, ?_, ?_, ?_, ?_, ?_, ?_, ?_, ?_, ?_⟩
  · intro t hm
    obtain ⟨s0, -, hf⟩ := trace_fires env s h _ hm
    cases t <;> first | rfl | (simp only [Fires] at hf)
  · refine le_trans (main_count_le env s hi _) ?_
    simp [mainScriptOf, List.count_cons]
    split_ifs <;> first | contradiction | simp
  · intro h9
    apply count_eq_one_of_mem_of_le
    · apply main_mem_of_index env s hi _ 8 _ (by omega)
      simp [mainScriptOf]
    · refine le_trans (main_count_le env s hi _) ?_
      simp [mainScriptOf, List.count_cons]
      split_ifs <;> first | contradiction | simp
  · intro t ch hm
    obtain ⟨s0, hr0, hf⟩ := trace_fires env s h _ hm
    have hi0 := inv_reachable env s0 hr0
    cases t <;> simp only [Fires] at hf
    have h0 := hi0.shStop_some (by simp [hf.1])
    rw [hf.2] at h0
    cases h0
    have hr := main_mem_rank env s hi _ 11 (by omega)
      (by simp [mainScriptOf]; split_ifs <;> simp) hm
    exact ⟨rfl, hi.stop_some (by omega), hi.shStop_some (by omega)⟩
  · intro t ch hm
    obtain ⟨s0, hr0, hf⟩ := trace_fires env s h _ hm
    have hi0 := inv_reachable env s0 hr0
    cases t <;> simp only [Fires] at hf
    have h0 := hi0.wrk_vars (by simp [hf.1])
    rw [hf.2] at h0
    cases h0
    rw [worker_mem_iff env s hi] at hm
    have hne : s.wrkPc ≠ .notSpawned ∧ 1 ≤ s.wrkPc.rank := by
      cases hpc : s.wrkPc <;> simp [hpc, wrkScript] at hm ⊢
    have h2 := hi.runStop_eq
    simp [hne.2] at h2
    exact ⟨rfl, hi.wrk_vars hne.1, h2⟩
  · intro t ch hm
    obtain ⟨s0, hr0, hf⟩ := trace_fires env s h _ hm
    have hi0 := inv_reachable env s0 hr0
    cases t <;> simp only [Fires] at hf
    have h0 := hi0.stop_some (by simp [hf.1])
    rw [hf.2] at h0
    cases h0
    have hr := main_mem_rank env s hi _ 15 (by omega)
      (by simp [mainScriptOf]; split_ifs <;> simp) hm
    have hp : s.pipePc ≠ .notStarted := by
      intro hp
      have := hi.pipe_start.mp hp
      omega
    have h2 := hi.startStop_eq
    simp [hp] at h2
    exact ⟨rfl, hi.stop_some (by omega), h2⟩
  · intro a b ha hb
    have h1 := hi.runStop_eq
    have h2 := hi.startStop_eq
    have hp : s.pipePc ≠ .notStarted := by
      intro hp
      simp [hp, hb] at h2
    have hw : 1 ≤ s.wrkPc.rank := by
      by_contra hw
      simp [hw, ha] at h1
    simp [hp, hb] at h2
    simp [hw, ha] at h1
    have hr : 16 ≤ s.mainPc.rank := by
      by_contra hlt
      exact hp (hi.pipe_start.mpr (by omega))
    subst h1 h2
    exact ⟨rfl, hi.stop_some (by omega), hi.shStop_some (by omega)⟩
  · refine precedes_reachable env _ _ ?_ s h
    intro s0 hr0 hf
    have hi0 := inv_reachable env s0 hr0
    simp only [Fires] at hf
    exact main_mem_of_index env s0 hi0 _ 8 (by simp [mainScriptOf]) (by simp [hf])
  · intro ch
    refine precedes_reachable env _ _ ?_ s h
    intro s0 hr0 hf
    have hi0 := inv_reachable env s0 hr0
    simp only [Fires] at hf
    exact main_mem_of_index env s0 hi0 _ 8 (by simp [mainScriptOf]) (by simp [hf.1])
  · intro ch
    refine precedes_reachable env _ _ ?_ s h
    intro s0 hr0 hf
    have hi0 := inv_reachable env s0 hr0
    simp only [Fires] at hf
    have hr : 14 ≤ s0.mainPc.rank := by
      by_contra hlt
      have := hi0.wrk_spawn.mpr (by omega)
      simp [hf.1] at this
    exact main_mem_of_index env s0 hi0 _ 8 (by simp [mainScriptOf]) (by omega)
  · intro ch
    refine precedes_reachable env _ _ ?_ s h
    intro s0 hr0 hf
    have hi0 := inv_reachable env s0 hr0
    simp only [Fires] at hf
    have h0 := hi0.wrk_vars (by simp [hf.1])
    rw [hf.2] at h0
    cases h0
    have hr : 14 ≤ s0.mainPc.rank := by
      by_contra hlt
      have := hi0.wrk_spawn.mpr (by omega)
      simp [hf.1] at this
    exact main_mem_of_index env s0 hi0 _ 11 (by simp [mainScriptOf]) (by omega)
  · intro ch
    refine precedes_reachable env _ _ ?_ s h
    intro s0 hr0 hf
    have hi0 := inv_reachable env s0 hr0
    simp only [Fires] at hf
    have h0 := hi0.stop_some (by simp [hf.1])
    rw [hf.2] at h0
    cases h0
    exact main_mem_of_index env s0 hi0 _ 11 (by simp [mainScriptOf]) (by simp [hf.1])

/-- Witness for C7: in the complete run `schedGraceful`, `sigHandler` is called
once and Run and Start are both called with channel 0, the one it returned. -/
theorem shared_handle_ordering_witness :
    ∃ s, run envInCluster schedGraceful init = some s ∧ s.mainPc = .exited ∧
      s.runStop = some 0 ∧ s.startStop = some 0 ∧
      (Thread.main, Action.sigHandlerReturn 0) ∈ s.trace ∧
      s.trace.count (Thread.main, Action.sigHandlerCall) = 1 ∧
      Precedes (.main, .sigHandlerCall) (.main, .goWorker) s.trace :=
  ⟨_, rfl, rfl, rfl, rfl, by decide,
    (shared_handle_ordering envInCluster _ ⟨schedGraceful, rfl⟩).2.2.1 (by decide),
    (shared_handle_ordering envInCluster _ ⟨schedGraceful, rfl⟩).2.2.2.2.2.2.2.1⟩

/-- When client construction succeeds, `main` is never blocked before `wg.Wait()`,
nor at `wg.Wait()` once the worker has finished; its step moves only `main`. -/
theorem main_advance (env : Env) (s : State) (cs : Clientset) (hi : Inv env s)
    (hok : clientOf env = .ok cs) (m l w p : Nat) (hp : s.pos m l w p) (hm : m < 19)
    (hw : m = 16 → w = 3) : ∃ s1, step env .main s = some s1 ∧ s1.pos (m + 1) l w p := by
  obtain ⟨hc, rfl, rfl, rfl, rfl⟩ := hp
  have herr1 : s.mainPc = .checkConfigErr → s.err = none := by
    intro hpc
    have h1 := (hi.cfg_at hpc).1
    cases he : s.err with
    | none => rfl
    | some e =>
      rw [he, fromPair_some] at h1
      simp [clientOf, h1] at hok
  have herr2 : s.mainPc = .checkClientErr → s.err = none := by
    intro hpc
    have h1 := (hi.cs_at hpc).1
    cases he : s.err with
    | none => rfl
    | some e =>
      rw [he, fromPair_some, hok] at h1
      cases h1
  have hcfg := hi.cfg_ok
  have hcs := hi.cs_ok
  have hsh := hi.shStop_some
  have hst := hi.stop_some
  have hwg := hi.wg_eq
  have hl := hi.lis_spawn
  have hwk := hi.wrk_spawn
  have hpp := hi.pipe_start
  simp only [step, State.ended, hc, mainStep]
  cases hpc : s.mainPc <;> simp [hpc] at hm hw herr1 herr2 hcfg hcs hsh hst hwg hl hwk hpp ⊢
  all_goals (try split) <;> (try split) <;> (try simp [State.pos, *])
  all_goals (try simp_all)
  all_goals (try (cases hwp : s.wrkPc <;> simp_all [State.pos]))

/-- The listener goroutine is not blocked, except at its receive while no signal
of the `signal.Notify` set has arrived; its step moves only the listener. -/
theorem lis_advance (env : Env) (s : State) (hi : Inv env s) (m l w p : Nat)
    (hp : s.pos m l w p) (hm : 11 ≤ m) (hm19 : m < 19) (hl : l < 5)
    (hq : 2 ≤ l → qualifying s.trace ≠ []) :
    ∃ s1, step env .listener s = some s1 ∧ s1.pos m (l + 1) w p ∧
      qualifying s1.trace = qualifying s.trace := by
  obtain ⟨hc, rfl, rfl, rfl, rfl⟩ := hp
  have h1 := hi.lis_spawn
  have h2 := hi.sig_before
  have h3 := hi.sig_after
  have h4 := hi.lis_vars
  have h5 := hi.closed_eq
  have h6 := hi.c_eq
  have hex : s.mainPc ≠ .exited := by
    intro h
    simp [h] at hm19
  simp only [step, State.ended, hc, lisStep]
  cases hpc : s.lisPc <;> simp [hpc] at hl hq h1 h2 h3 h4 h5 h6 ⊢
  all_goals (try omega)
  all_goals (cases hqq : qualifying s.trace <;>
    simp_all [State.pos, qualifying_snoc, State.isClosed])

/-- A signal of the set is caught once `signal.Notify` has run; no goroutine
moves. -/
theorem sig_advance (env : Env) (s : State) (g : Signal) (hi : Inv env s) (hg : g ∈ notifySet)
    (m l w p : Nat) (hp : s.pos m l w p) (hm19 : m < 19) (hl : 2 ≤ l) :
    ∃ s1, step env (.signal g) s = some s1 ∧ s1.pos m l w p ∧ s1.pending ≠ [] := by
  obtain ⟨hc, rfl, rfl, rfl, rfl⟩ := hp
  have h1 := hi.notify_eq
  have hex : s.mainPc ≠ .exited := by
    intro h
    simp [h] at hm19
  simp only [step, State.ended, hc, sigStep]
  simp [hl] at h1
  simp [h1, hex, State.catches, hg]
  refine ⟨by simp [State.pos, hc], ?_⟩
  split
  · rename_i hin
    exact List.ne_nil_of_mem hin
  · simp

/-- A caught signal is relayed; no goroutine moves. -/
theorem relay_advance (env : Env) (s : State) (hi : Inv env s) (hsi : SigInv s)
    (m l w p : Nat) (hp : s.pos m l w p) (hm19 : m < 19) (hpend : s.pending ≠ []) :
    ∃ s1, step env .relay s = some s1 ∧ s1.pos m l w p ∧ qualifying s1.trace ≠ [] := by
  obtain ⟨hc, rfl, rfl, rfl, rfl⟩ := hp
  have hex : s.mainPc ≠ .exited := by
    intro h
    simp [h] at hm19
  obtain ⟨g, hg⟩ := lowest_ne_nil s.pending hpend
  have hgn := hsi.pending_sub g (lowest_mem _ _ hg)
  cases hn : s.notify with
  | none => exact absurd (hsi.pending_reg hn) hpend
  | some reg =>
    simp only [step, State.ended, hc, relayStep, hn, hg]
    simp [hex, State.pos, hc, qualifying_snoc, hgn]

/-- The worker goroutine is not blocked, except inside `eventRouter.Run` while
the stop channel is open; its step moves only the worker. -/
theorem wrk_advance (env : Env) (s : State) (hi : Inv env s) (m l w p : Nat)
    (hp : s.pos m l w p) (hm : 14 ≤ m) (hm19 : m < 19) (hw : w < 3) (hl : w = 1 → l = 5) :
    ∃ s1, step env .worker s = some s1 ∧ s1.pos m l (w + 1) p := by
  obtain ⟨hc, rfl, rfl, rfl, rfl⟩ := hp
  have h1 := hi.wrk_spawn
  have h2 := hi.wrk_vars
  have h3 := hi.runStop_eq
  have h4 := hi.closed_eq
  have h5 := hi.wg_eq
  have h6 := hi.wrk_notGo
  have hex : s.mainPc ≠ .exited := by
    intro h
    simp [h] at hm19
  simp only [step, State.ended, hc, wrkStep]
  cases hpc : s.wrkPc <;> simp [hpc] at hw hl h1 h2 h3 h4 h5 h6 ⊢
  all_goals (try omega)
  all_goals (cases hlp : s.lisPc <;> simp_all [State.pos, State.stopFired, State.isClosed])

/-- Repeating one scheduling choice while a step-indexed property is carried
from each state to the next. -/
theorem iterate_step (env : Env) (e : Event) (P : Nat → State → Prop) (n : Nat)
    (hstep : ∀ k s, k < n → Reachable env s → P k s →
      ∃ s1, step env e s = some s1 ∧ P (k + 1) s1) :
    ∀ d j s, j + d = n → Reachable env s → P j s →
      ∃ s1, run env (List.replicate d e) s = some s1 ∧ P n s1 := by
  intro d
  induction d with
  | zero =>
    intro j s hj hr hp
    have : j = n := by omega
    subst this
    exact ⟨s, rfl, hp⟩
  | succ d ih =>
    intro j s hj hr hp
    obtain ⟨s1, hs1, hp1⟩ := hstep j s (by omega) hr hp
    obtain ⟨s2, hs2, hp2⟩ := ih (j + 1) s1 (by omega) (reachable_step env e s s1 hr hs1) hp1
    exact ⟨s2, by simp [List.replicate, run, hs1, hs2], hp2⟩

/-- Whenever client construction succeeds, the schedule `schedGraceful` is a
complete run: `main` returns, the worker has finished, and the informer loop
started by `sharedInformers.Start` is still running. -/
theorem run_graceful (env : Env) (cs : Clientset) (hok : clientOf env = .ok cs) :
    ∃ s1, run env schedGraceful init = some s1 ∧ s1.mainPc = .exited ∧
      s1.wrkPc = .finished ∧ s1.pipePc = .running ∧ s1.crash = none := by
  have h0 : init.pos 0 0 0 0 := by simp [State.pos, init]
  obtain ⟨sA, hA, hpA⟩ := iterate_step env .main (fun k s => s.pos k 0 0 0) 16
    (fun k s hk hr hp => main_advance env s cs (inv_reachable env s hr) hok k 0 0 0 hp
      (by omega) (by omega)) 16 0 init rfl (reachable_init env) h0
  have hrA := reachable_run env _ init sA (reachable_init env) hA
  obtain ⟨sB, hB, hpB⟩ := iterate_step env .listener (fun k s => s.pos 16 k 0 0) 2
    (fun k s hk hr hp => by
      obtain ⟨s1, h1, h2, -⟩ := lis_advance env s (inv_reachable env s hr) 16 k 0 0 hp
        (by omega) (by omega) (by omega) (by omega)
      exact ⟨s1, h1, h2⟩) 2 0 sA rfl hrA hpA
  have hrB := reachable_run env _ sA sB hrA hB
  obtain ⟨sC0, hC0, hpC0, hqC0⟩ := sig_advance env sB .SIGINT (inv_reachable env sB hrB)
    (by decide) 16 2 0 0 hpB (by omega) (by omega)
  have hrC0 := reachable_step env _ sB sC0 hrB hC0
  obtain ⟨sC, hC, hpC, hqC⟩ := relay_advance env sC0 (inv_reachable env sC0 hrC0)
    (siginv_reachable env sC0 hrC0) 16 2 0 0 hpC0 (by omega) hqC0
  have hrC := reachable_step env _ sC0 sC hrC0 hC
  obtain ⟨sD, hD, hpD, -⟩ := iterate_step env .listener
    (fun k s => s.pos 16 k 0 0 ∧ qualifying s.trace ≠ []) 5
    (fun k s hk hr hp => by
      obtain ⟨s1, h1, h2, h3⟩ := lis_advance env s (inv_reachable env s hr) 16 k 0 0 hp.1
        (by omega) (by omega) (by omega) (fun _ => hp.2)
      exact ⟨s1, h1, h2, h3 ▸ hp.2⟩) 3 2 sC rfl hrC ⟨hpC, hqC⟩
  have hrD := reachable_run env _ sC sD hrC hD
  obtain ⟨sE, hE, hpE⟩ := iterate_step env .worker (fun k s => s.pos 16 5 k 0) 3
    (fun k s hk hr hp => wrk_advance env s (inv_reachable env s hr) 16 5 k 0 hp
      (by omega) (by omega) (by omega) (fun _ => rfl)) 3 0 sD rfl hrD hpD
  have hrE := reachable_run env _ sD sE hrD hE
  obtain ⟨sF, hF, hpF⟩ := iterate_step env .main (fun k s => s.pos k 5 3 0) 19
    (fun k s hk hr hp => main_advance env s cs (inv_reachable env s hr) hok k 5 3 0 hp
      (by omega) (fun _ => rfl)) 3 16 sE rfl hrE hpE
  have hrF := reachable_run env _ sE sF hrE hF
  have hsched : schedGraceful = List.replicate 16 .main ++ (List.replicate 2 .listener ++
      ([.signal .SIGINT, .relay] ++ (List.replicate 3 .listener ++ (List.replicate 3 .worker ++
        List.replicate 3 .main)))) := rfl
  have hrun : run env schedGraceful init = some sF := by
    have hC1 : run env [.signal .SIGINT, .relay] sB = some sC := by simp [run, hC0, hC]
    rw [hsched, run_append, hA, Option.some_bind, run_append, hB, Option.some_bind,
      run_append, hC1, Option.some_bind, run_append, hD, Option.some_bind, run_append, hE,
      Option.some_bind, hF]
  have hiF := inv_reachable env sF hrF
  obtain ⟨h1, h2, h3, h4, h5⟩ := hpF
  refine ⟨sF, hrun, ?_, ?_, ?_, h1⟩
  · cases hpc : sF.mainPc <;> simp [hpc] at h2 ⊢
  · cases hpc : sF.wrkPc <;> simp [hpc] at h4 ⊢
  · have := hiF.pipe_start
    cases hpc : sF.pipePc <;> simp [hpc, h2] at h5 this ⊢

/-- The step of `main` does not read the state of the informer loop. -/
theorem main_step_ignores_pipeline (env : Env) (s : State) (p : PipePc) :
    (step env .main { s with pipePc := p }).isSome = (step env .main s).isSome := by
  simp only [step, State.ended, mainStep]
  cases hpc : s.mainPc <;> cases hc : s.crash <;> simp <;>
    (try split) <;> (try split) <;> simp_all

/-- C8 (the wait covers the worker only).  In every reachable state:
`wg.Add` is only called by `main`, with 1, at most once (exactly once when
`main` is past line 92), and `wg.Done` only by the worker goroutine, at most
once; the informer loop performs no statement but its own unwinding, so it
never touches the WaitGroup; the counter is 0 or 1.  At `wg.Wait()` `main`
can take its next step exactly when the worker goroutine has finished,
whatever the state of the informer loop.  Whenever client construction
succeeds there is an execution at whose end `main` has logged `Exiting main()`
and returned while the informer loop is still running. -/
theorem wait_covers_worker_only (env : Env) (s : State) (h : Reachable env s) :
    (∀ t d, (t, Action.wgAdd d) ∈ s.trace → t = .main ∧ d = 1) ∧
    s.trace.count (Thread.main, Action.wgAdd 1) ≤ 1 ∧
    (13 ≤ s.mainPc.rank → s.trace.count (Thread.main, Action.wgAdd 1) = 1) ∧
    (∀ t, (t, Action.wgDone) ∈ s.trace → t = .worker) ∧
    s.trace.count (Thread.worker, Action.wgDone) ≤ 1 ∧
    (∀ a, (Thread.pipeline, a) ∈ s.trace → a = .pipelineUnwound) ∧
    (s.wg = 0 ∨ s.wg = 1) ∧
    (s.mainPc = .wgWait →
      ((∃ s1, step env .main s = some s1) ↔ s.wrkPc = .finished)) ∧
    (∀ p, (step env .main { s with pipePc := p }).isSome = (step env .main s).isSome) ∧
    (∀ cs, clientOf env = .ok cs →
      ∃ es s1, run env es init = some s1 ∧ s1.mainPc = .exited ∧ s1.pipePc = .running ∧
        (Thread.main, Action.log .warning .exitingMain) ∈ s1.trace ∧
        (Thread.main, Action.mainReturn) ∈ s1.trace ∧
        (Thread.pipeline, Action.pipelineUnwound) ∉ s1.trace) := by
  have hi := inv_reachable env s h
  refine ⟨?_, ?_, ?_, ?_, ?_, ?_, ?_, ?_, ?_, ?_⟩
  · intro t d hm
    obtain ⟨s0, -, hf⟩ := trace_fires env s h _ hm
    cases t <;> simp only [Fires] at hf
    exact ⟨rfl, hf.2⟩
  · refine le_trans (main_count_le env s hi _) ?_
    simp [mainScriptOf, List.count_cons]
    split_ifs <;> first | contradiction | simp
  · intro h13
    apply count_eq_one_of_mem_of_le
    · apply main_mem_of_index env s hi _ 12 _ (by omega)
      simp [mainScriptOf]
    · refine le_trans (main_count_le env s hi _) ?_
      simp [mainScriptOf, List.count_cons]
      split_ifs <;> first | contradiction | simp
  · intro t hm
    obtain ⟨s0, -, hf⟩ := trace_fires env s h _ hm
    cases t <;> first | rfl | (simp only [Fires] at hf)
  · rw [count_proj, hi.wrk_trace]
    cases hpc : s.wrkPc <;> simp [wrkScript, List.count_cons]
  · intro a hm
    rw [← mem_proj, hi.pipe_trace] at hm
    exact List.mem_singleton.mp (List.mem_of_mem_take hm)
  · have := hi.wg_eq
    split at this
    · exact Or.inr this
    · exact Or.inl this
  · intro hp
    have hc : s.crash = none := crash_none_of_rank env s hi (by simp [hp])
    have h2 := hi.wrk_spawn
    have h4 := hi.wg_eq
    simp [hp] at h2 h4
    simp only [step, State.ended, hc, hp, mainStep]
    constructor
    · rintro ⟨s1, hs⟩
      by_contra hne
      simp [h4, h2, hne] at hs
    · intro hw
      simp [h4, hw]
  · intro p
    exact main_step_ignores_pipeline env s p
  · intro cs hok
    obtain ⟨s1, hrun, h1, -, h3, -⟩ := run_graceful env cs hok
    have hi1 := inv_reachable env s1 ⟨_, hrun⟩
    have hc1 := crash_none_of_rank env s1 hi1 (by simp [h1])
    refine ⟨schedGraceful, s1, hrun, h1, h3, ?_, ?_, ?_⟩
    · exact main_mem_of_index env s1 hi1 _ 17 (by simp [mainScriptOf]) (by simp [h1])
    · exact main_mem_of_index env s1 hi1 _ 18 (by simp [mainScriptOf]) (by simp [h1])
    · rw [← mem_proj, hi1.pipe_trace]
      simp [h3]

/-- Witness for C8: at the end of the complete run `schedGraceful`, `main` has
returned, the worker has finished and the informer loop is still running. -/
theorem wait_covers_worker_only_witness :
    ∃ s, run envInCluster schedGraceful init = some s ∧ s.mainPc = .exited ∧
      s.pipePc = .running ∧ s.wrkPc = .finished ∧
      s.trace.count (Thread.main, Action.wgAdd 1) = 1 ∧
      ∀ a, (Thread.pipeline, a) ∈ s.trace → a = .pipelineUnwound :=
  ⟨_, rfl, rfl, rfl, rfl,
    (wait_covers_worker_only envInCluster _ ⟨schedGraceful, rfl⟩).2.2.1 (by decide),
    (wait_covers_worker_only envInCluster _ ⟨schedGraceful, rfl⟩).2.2.2.2.2.1⟩

/-- Once built, the informer factory is not replaced by any step. -/
theorem step_factory (env : Env) (e : Event) (s s' : State) (hi : Inv env s)
    (hs : step env e s = some s') (hf : s.factory ≠ none) : s'.factory = s.factory := by
  unfold step at hs
  split at hs
  · cases hs
  · cases e with
    | main =>
      simp only [mainStep] at hs
      cases hpc : s.mainPc <;> simp only [hpc] at hs <;>
        (try split at hs) <;> (try split at hs) <;> cases hs <;>
        first | rfl | exact absurd (hi.factory_none (by simp [hpc])) hf
    | listener =>
      simp only [lisStep] at hs
      cases hpc : s.lisPc <;> simp only [hpc] at hs <;>
        (try split at hs) <;> (try split at hs) <;> cases hs <;> rfl
    | worker =>
      simp only [wrkStep] at hs
      cases hpc : s.wrkPc <;> simp only [hpc] at hs <;>
        (try split at hs) <;> (try split at hs) <;> cases hs <;> rfl
    | pipeline =>
      simp only [pipeStep] at hs
      cases hpc : s.pipePc <;> simp only [hpc] at hs <;>
        (try split at hs) <;> (try split at hs) <;> cases hs <;> rfl
    | signal g =>
      simp only [sigStep] at hs
      split at hs
      · cases hs
        rfl
      · split at hs <;> cases hs
        rfl
    | relay =>
      simp only [relayStep] at hs
      split at hs
      · cases hs
      · split at hs <;> cases hs
        rfl

theorem run_factory (env : Env) (es : List Event) (s s1 : State) (hr : Reachable env s)
    (hs : run env es s = some s1) (hf : s.factory ≠ none) : s1.factory = s.factory := by
  induction es generalizing s with
  | nil =>
    simp only [run, Option.some.injEq] at hs
    subst hs
    rfl
  | cons e es ih =>
    simp only [run] at hs
    cases h1 : step env e s with
    | none => simp [h1] at hs
    | some s2 =>
      simp only [h1, Option.some_bind] at hs
      have h2 := step_factory env e s s2 (inv_reachable env s hr) h1 hf
      have h3 := ih s2 (reachable_step env e s s2 hr h1) hs (by rw [h2]; exact hf)
      rw [h3, h2]

/-- C9 (resync interval).  In every reachable state: the informer factory is
only constructed by `main`, at most once, with the value of the
`resync-interval` flag, and that is the duration the factory holds; the flags
are parsed by `main` only, at most once; after `flag.Parse` the variable holds
the flag's value; before line 82 there is no factory and after it the factory
holds the client and the flag's value.  The flag's value is 30 minutes when
the flag is not supplied and the supplied duration otherwise.  No later step
replaces the factory. -/
theorem resync_interval (env : Env) (s : State) (h : Reachable env s) :
    (∀ t cs d, (t, Action.newSharedInformerFactory cs d) ∈ s.trace →
      t = .main ∧ d = resyncOf env ∧ s.factory = some (cs, resyncOf env)) ∧
    (∀ cs d, s.trace.count (Thread.main, Action.newSharedInformerFactory cs d) ≤ 1) ∧
    (∀ t k r, (t, Action.flagParse k r) ∈ s.trace → t = .main ∧ r = resyncOf env) ∧
    (∀ k r, s.trace.count (Thread.main, Action.flagParse k r) ≤ 1) ∧
    (1 ≤ s.mainPc.rank → s.rsInterval = resyncOf env) ∧
    (s.mainPc.rank < 6 → s.factory = none) ∧
    (6 ≤ s.mainPc.rank → ∃ cs, clientOf env = .ok cs ∧
      s.factory = some (cs, resyncOf env) ∧
      s.trace.count (Thread.main, Action.newSharedInformerFactory cs (resyncOf env)) = 1) ∧
    (env.args.resyncInterval = none →
      resyncOf env = minute * 30 ∧ resyncOf env = 1800000000000) ∧
    (∀ d, env.args.resyncInterval = some d → resyncOf env = d) ∧
    (∀ es s1, run env es s = some s1 → s.factory ≠ none → s1.factory = s.factory) := by
  have hi := inv_reachable env s h
  have hfac : 6 ≤ s.mainPc.rank → ∃ cs, clientOf env = .ok cs ∧ s.clientset = some cs ∧
      s.factory = some (cs, resyncOf env) := by
    intro h6
    obtain ⟨h1, h2⟩ := hi.cs_ok (by omega)
    have h3 := hi.factory_some h6
    cases hcs : s.clientset with
    | none => simp [hcs] at h1
    | some cs =>
      rw [hcs, okOr_some] at h2
      rw [hcs] at h3
      exact ⟨cs, h2, rfl, h3⟩
  refine ⟨?_, ?_, ?_, ?_, ?_, ?_, ?_, ?_, ?_, ?_⟩
  · intro t cs d hm
    obtain ⟨s0, hr0, hf⟩ := trace_fires env s h _ hm
    have hi0 := inv_reachable env s0 hr0
    cases t <;> simp only [Fires] at hf
    obtain ⟨hp, hcs0, hd⟩ := hf
    have hd0 := (hi0.flags (by simp [hp])).2
    have hc0 := (hi0.cs_ok (by simp [hp])).2
    rw [hcs0, okOr_some] at hc0
    have hr := main_mem_rank env s hi _ 5 (by omega)
      (by simp [mainScriptOf]; split_ifs <;> simp) hm
    obtain ⟨cs1, h1, -, h3⟩ := hfac (by omega)
    rw [hc0] at h1
    cases h1
    exact ⟨rfl, hd.trans hd0, h3⟩
  · intro cs d
    refine le_trans (main_count_le env s hi _) ?_
    simp [mainScriptOf, List.count_cons]
    split_ifs <;> first | contradiction | simp
  · intro t k r hm
    obtain ⟨s0, -, hf⟩ := trace_fires env s h _ hm
    cases t <;> simp only [Fires] at hf
    refine ⟨rfl, ?_⟩
    rw [main_mem_iff env s hi] at hm
    have h1 : 1 ≤ s.mainPc.rank := by
      by_contra h0
      have hpc : s.mainPc = .parseFlags := by
        cases hpc : s.mainPc <;> simp [hpc] at h0 ⊢
      have hc : s.crash = none := by
        cases hc : s.crash with
        | none => rfl
        | some m =>
          have := hi.crash_pc (by simp [hc])
          simp [hpc] at this
      simp [State.mainProgress, hpc, hc] at hm
    have h2 := (hi.flags h1).2
    have h3 := List.mem_of_mem_take hm
    simp [mainScriptOf] at h3
    split_ifs at h3 <;> simp at h3 <;> rw [← h2] <;> exact h3.2
  · intro k r
    refine le_trans (main_count_le env s hi _) ?_
    simp [mainScriptOf, List.count_cons]
    split_ifs <;> first | contradiction | simp
  · intro h1
    exact (hi.flags h1).2
  · exact hi.factory_none
  · intro h6
    obtain ⟨cs, h1, h2, h3⟩ := hfac h6
    refine ⟨cs, h1, h3, ?_⟩
    have hr := (hi.flags (by omega)).2
    apply count_eq_one_of_mem_of_le
    · apply main_mem_of_index env s hi _ 5 _ (by omega)
      simp [mainScriptOf, h2, hr]
    · refine le_trans (main_count_le env s hi _) ?_
      simp [mainScriptOf, List.count_cons]
      split_ifs <;> first | contradiction | simp
  · intro hn
    simp [resyncOf, hn, minute]
  · intro d hd
    simp [resyncOf, hd]
  · intro es s1 hs hf
    exact run_factory env es s s1 h hs hf

/-- Witness for C9: with `resync-interval=1m` the factory is built with one
minute; without the flag it is built with thirty minutes. -/
theorem resync_interval_witness :
    (∃ s, run envKubeconfig (List.replicate 6 .main) init = some s ∧
      s.factory = some (4, 60000000000) ∧
      ∃ cs, clientOf envKubeconfig = .ok cs ∧
        s.factory = some (cs, resyncOf envKubeconfig) ∧
        s.trace.count
          (Thread.main, Action.newSharedInformerFactory cs (resyncOf envKubeconfig)) = 1) ∧
    (∃ s, run envInCluster (List.replicate 6 .main) init = some s ∧
      s.factory = some (8, 1800000000000) ∧
      (resyncOf envInCluster = minute * 30 ∧ resyncOf envInCluster = 1800000000000)) :=
  ⟨⟨_, rfl, rfl,
      (resync_interval envKubeconfig _ ⟨List.replicate 6 .main, rfl⟩).2.2.2.2.2.2.1
        (by decide)⟩,
    ⟨_, rfl, rfl,
      (resync_interval envInCluster _ ⟨List.replicate 6 .main, rfl⟩).2.2.2.2.2.2.2.1 rfl⟩⟩

/-- If every `b` comes after an `a`, and `a` occurs, then not every `a` comes
after a `b`. -/
theorem not_precedes_of_precedes (a b : Thread × Action) (t : List (Thread × Action))
    (hab : Precedes a b t) (ha : a ∈ t) : ¬ Precedes b a t := by
  intro hba
  obtain ⟨pre, post, ht, hn⟩ := List.eq_append_cons_of_mem ha
  have hb := hba pre post ht
  obtain ⟨p1, p2, hp⟩ := List.append_of_mem hb
  have h1 := hab p1 (p2 ++ a :: post) (by rw [ht, hp]; simp)
  apply hn
  rw [hp]
  exact List.mem_append_left _ h1

/-- The worker's `wg.Done()` precedes the end of `wg.Wait()`. -/
theorem done_before_wait (env : Env) (s : State) (h : Reachable env s) :
    Precedes (.worker, .wgDone) (.main, .wgWaitDone) s.trace := by
  refine precedes_reachable env _ _ ?_ s h
  intro s hr hf
  have hi := inv_reachable env s hr
  simp only [Fires] at hf
  obtain ⟨hp, hwg⟩ := hf
  have h2 := hi.wrk_spawn
  have h4 := hi.wg_eq
  simp [hp] at h2 h4
  simp [h4] at hwg
  have hw : s.wrkPc = .finished := by
    by_contra hne
    simp [h2, hne] at hwg
  rw [worker_mem_iff env s hi]
  simp [hw, wrkScript]

/-- An action of `main` is in the trace whenever a later action of `main` is
about to be performed. -/
theorem main_precedes (env : Env) (a b : Action) (i : Nat)
    (ha : ∀ s, Fires env s (Thread.main, b) → (mainScriptOf s)[i]? = some a ∧ i < s.mainPc.rank) :
    ∀ s, Reachable env s → Precedes (Thread.main, a) (Thread.main, b) s.trace := by
  refine precedes_reachable env _ _ ?_
  intro s hr hf
  have hi := inv_reachable env s hr
  obtain ⟨h1, h2⟩ := ha s hf
  exact main_mem_of_index env s hi a i h1 h2

/-- C10, as amended (control-flow order).  In every reachable state the
actions of `main` occur in program order: client construction, then the
informer factory, then the construction of the event router on the same
client, then the call of `sigHandler` and the launch of its listener, then the
launch of the worker goroutine, then `sharedInformers.Start`, then the end of
`wg.Wait()` (after the worker's `wg.Done()`), then the final log and the
return.  Once `sigHandler` has been called, the launch of the worker goroutine
does not come before that call.  When `main` has returned, its actions are
exactly the nineteen statements in that order. -/
theorem control_flow_order (env : Env) (s : State) (h : Reachable env s) :
    (∀ cs d, PrecededBy (fun x => ∃ cfg, x = (Thread.main, Action.newForConfig cfg))
      (.main, .newSharedInformerFactory cs d) s.trace) ∧
    (∀ cs, Precedes (.main, .newSharedInformerFactory cs (resyncOf env))
      (.main, .newEventRouter cs) s.trace) ∧
    PrecededBy (fun x => ∃ cs, x = (Thread.main, Action.newEventRouter cs))
      (.main, .sigHandlerCall) s.trace ∧
    Precedes (.main, .sigHandlerCall) (.main, .goListener) s.trace ∧
    Precedes (.main, .goListener) (.main, .goWorker) s.trace ∧
    Precedes (.main, .sigHandlerCall) (.main, .goWorker) s.trace ∧
    (∀ ch, Precedes (.main, .goWorker) (.main, .informersStart ch) s.trace) ∧
    Precedes (.main, .informersStart 0) (.main, .wgWaitDone) s.trace ∧
    Precedes (.worker, .wgDone) (.main, .wgWaitDone) s.trace ∧
    Precedes (.main, .wgWaitDone) (.main, .log .warning .exitingMain) s.trace ∧
    Precedes (.main, .log .warning .exitingMain) (.main, .mainReturn) s.trace ∧
    ((Thread.main, Action.sigHandlerCall) ∈ s.trace →
      ¬ Precedes (.main, .goWorker) (.main, .sigHandlerCall) s.trace) ∧
    (s.mainPc = .exited → ∃ cfg cs, resolve env = .ok cfg ∧ env.newForConfig cfg = .ok cs ∧
      proj .main s.trace =
        [.flagParse (kubeconfigOf env) (resyncOf env), resolverAction env, .checkErr,
         .newForConfig cfg, .checkErr, .newSharedInformerFactory cs (resyncOf env),
         .eventsInformer, .newEventRouter cs, .sigHandlerCall, .makeChan 0, .goListener,
         .sigHandlerReturn 0, .wgAdd 1, .goWorker, .log .info .startingInformers,
         .informersStart 0, .wgWaitDone, .log .warning .exitingMain, .mainReturn]) := by
  have hi := inv_reachable env s h
  have hcall : Precedes (.main, .sigHandlerCall) (.main, .goWorker) s.trace :=
    main_precedes env _ _ 8 (fun s0 hf => by
      simp only [Fires] at hf
      simp [mainScriptOf, hf]) s h
  refine ⟨?_, ?_, ?_, ?_, ?_, hcall, ?_, ?_, done_before_wait env s h, ?_, ?_, ?_, ?_⟩
  · intro cs d
    refine precededBy_reachable env _ _ ?_ s h
    intro s0 hr0 hf
    have hi0 := inv_reachable env s0 hr0
    simp only [Fires] at hf
    refine ⟨(Thread.main, Action.newForConfig (s0.config.getD 0)), ?_, _, rfl⟩
    exact main_mem_of_index env s0 hi0 _ 3 (by simp [mainScriptOf]) (by simp [hf.1])
  · intro cs
    refine precedes_reachable env _ _ ?_ s h
    intro s0 hr0 hf
    have hi0 := inv_reachable env s0 hr0
    simp only [Fires] at hf
    have hr := (hi0.flags (by simp [hf.1])).2
    exact main_mem_of_index env s0 hi0 _ 5 (by simp [mainScriptOf, hf.2, hr]) (by simp [hf.1])
  · refine precededBy_reachable env _ _ ?_ s h
    intro s0 hr0 hf
    have hi0 := inv_reachable env s0 hr0
    simp only [Fires] at hf
    refine ⟨(Thread.main, Action.newEventRouter (s0.clientset.getD 0)), ?_, _, rfl⟩
    exact main_mem_of_index env s0 hi0 _ 7 (by simp [mainScriptOf]) (by simp [hf])
  · exact main_precedes env _ _ 8 (fun s0 hf => by
      simp only [Fires] at hf
      simp [mainScriptOf, hf]) s h
  · exact main_precedes env _ _ 10 (fun s0 hf => by
      simp only [Fires] at hf
      simp [mainScriptOf, hf]) s h
  · intro ch
    exact main_precedes env _ _ 13 (fun s0 hf => by
      simp only [Fires] at hf
      simp [mainScriptOf, hf.1]) s h
  · exact main_precedes env _ _ 15 (fun s0 hf => by
      simp only [Fires] at hf
      simp [mainScriptOf, hf.1]) s h
  · exact main_precedes env _ _ 16 (fun s0 hf => by
      simp only [Fires] at hf
      simp [mainScriptOf, hf]) s h
  · exact main_precedes env _ _ 17 (fun s0 hf => by
      simp only [Fires] at hf
      simp [mainScriptOf, hf]) s h
  · intro hm
    exact not_precedes_of_precedes _ _ _ hcall hm
  · intro hp
    have hc := crash_none_of_rank env s hi (by simp [hp])
    obtain ⟨h1, h2⟩ := hi.cfg_ok (by simp [hp])
    obtain ⟨h3, h4⟩ := hi.cs_ok (by simp [hp])
    obtain ⟨h5, h6⟩ := hi.flags (by simp [hp])
    have ht := hi.main_trace
    cases hcfg : s.config with
    | none => simp [hcfg] at h1
    | some cfg =>
      cases hcs : s.clientset with
      | none => simp [hcs] at h3
      | some cs =>
        rw [hcfg, okOr_some] at h2
        rw [hcs, okOr_some] at h4
        refine ⟨cfg, cs, h2, ?_, ?_⟩
        · simpa [clientOf, h2] using h4
        · rw [ht]
          simp [State.mainProgress, mainScriptOf, hp, hc, hcfg, hcs, h5, h6, resolverAction]

/-- Witness for C10 (amended): in the complete run `schedGraceful` the call of
`sigHandler` precedes the launch of the worker goroutine. -/
theorem control_flow_order_witness :
    ∃ s, run envInCluster schedGraceful init = some s ∧ s.mainPc = .exited ∧
      Precedes (.main, .sigHandlerCall) (.main, .goWorker) s.trace ∧
      ¬ Precedes (.main, .goWorker) (.main, .sigHandlerCall) s.trace :=
  ⟨_, rfl, rfl,
    (control_flow_order envInCluster _ ⟨schedGraceful, rfl⟩).2.2.2.2.2.1,
    (control_flow_order envInCluster _ ⟨schedGraceful, rfl⟩).2.2.2.2.2.2.2.2.2.2.2.1
      (by decide)⟩

/-- Counterexample to C10 as stated: in the complete run `schedGraceful`
(successful start-up, an interrupt, exit of `main`) the worker goroutine is
launched after `sigHandler` has been called and has launched its listener, not
before; only the construction of the event router comes before that call. -/
theorem worker_started_after_signal_source :
    ∃ s, run envInCluster schedGraceful init = some s ∧ s.mainPc = .exited ∧
      proj .main s.trace =
        [.flagParse "" 1800000000000, .inClusterConfig, .checkErr, .newForConfig 7, .checkErr,
         .newSharedInformerFactory 8 1800000000000, .eventsInformer, .newEventRouter 8,
         .sigHandlerCall, .makeChan 0, .goListener, .sigHandlerReturn 0, .wgAdd 1, .goWorker,
         .log .info .startingInformers, .informersStart 0, .wgWaitDone,
         .log .warning .exitingMain, .mainReturn] ∧
      (Thread.main, Action.goWorker) ∈ s.trace ∧
      (Thread.main, Action.sigHandlerCall) ∈ s.trace ∧
      ¬ Precedes (.main, .goWorker) (.main, .sigHandlerCall) s.trace ∧
      ¬ Precedes (.main, .goWorker) (.main, .goListener) s.trace ∧
      ¬ Precedes (.worker, .runCall 0) (.main, .sigHandlerCall) s.trace :=
  ⟨_, rfl, rfl, rfl, by decide, by decide,
    fun hp => absurd ((precedesB_iff _ _ _).mpr hp) (by decide),
    fun hp => absurd ((precedesB_iff _ _ _).mpr hp) (by decide),
    fun hp => absurd ((precedesB_iff _ _ _).mpr hp) (by decide)⟩

end EventRouter
